import Mathlib

/-!
# possessions: deferred-commit session engine

A shallow embedding of the session engine of the `possessions` package
(`sessions.go`, `storage_overseer.go`, `response_writer.go`) together with
theorems about the session-key validator, the event reduction, the commit
step, the response writer, the session facade, the middleware and the error
predicates.

Conventions of the embedding:

* a Go `string` that is only stored, compared and passed on (map keys, map
  values, session identifiers) is a Lean `String`; a Go `string` that is
  inspected byte by byte (`validKey`) is the list of its bytes, each byte a
  `Nat`;
* a Go `map[string]string` is an association list with unique keys
  (`AList`), read with `AList.lookup`; where the nil map matters it is the
  `none` of `GoMap`;
* a Go `error` is a value of `GoError`; a `nil` error is `none`;
* the effects of a commit (calls on the `Storer`, `Set-Cookie` header lines
  added to the response) are recorded in an explicit `World`;
* a function that can panic returns an `Option`, `none` for the panic; a
  method that can call itself without end takes the number of nested calls it
  may make.
-/

namespace Possessions

/-! ## Errors -/

/-- Go error values of the package: the two marker errors of `sessions.go`,
an ordinary error carrying a message, and the layers added by `errors.Wrap`. -/
inductive GoError where
  | errNoSession : GoError
  | errNoMapKey : GoError
  | other (msg : String) : GoError
  | wrap (cause : GoError) (msg : String) : GoError
  deriving DecidableEq, Repr

/-! ## Session key validation (`sessions.go`, `validKey`) -/

/-- The byte sequence of a Go string written as a Lean string literal. -/
def goBytes (s : String) : List Nat :=
  s.toUTF8.data.toList.map UInt8.toNat

/-- The `dashPos` slice of `validKey`: 0-indexed dash positions. -/
def dashPos : List Nat := [8, 13, 18, 23]

/-- The inner loop of `validKey`: `for _, pos := range dashPos`, setting
`atDashPos` and breaking at the first `pos` with `i == pos`. -/
def atDashPos (i : Nat) : List Nat → Bool
  | [] => false
  | pos :: rest => if i == pos then true else atDashPos i rest

/-- The outer loop of `validKey`, `for i := 0; i < len(key); i++`, run from
index `i` on the bytes `key[i:]`. `45` is the byte `'-'`; `48`, `57`, `97`
and `102` are `'0'`, `'9'`, `'a'` and `'f'`. -/
def validKeyLoop (i : Nat) : List Nat → Bool
  | [] => true
  | c :: rest =>
    if atDashPos i dashPos == true then
      if c != 45 then false
      else validKeyLoop (i + 1) rest
    else if c < 48 || (c > 57 && c < 97) || c > 102 then false
    else validKeyLoop (i + 1) rest

/-- The function `validKey`: the key is given as its byte sequence. -/
def validKey (key : List Nat) : Bool :=
  if key.length != 36 then false
  else validKeyLoop 0 key

/-- The shape a byte must have at index `i` of a session key: a dash at the
four dash positions, a lowercase hexadecimal digit elsewhere. -/
def byteOkAt (i c : Nat) : Prop :=
  (i ∈ [8, 13, 18, 23] → c = 45) ∧
  (i ∉ [8, 13, 18, 23] → (48 ≤ c ∧ c ≤ 57) ∨ (97 ≤ c ∧ c ≤ 102))

/-! ## Sessions and events (`sessions.go`) -/

/-- A Go `map[string]string` that is not the nil map: the maps the package
makes with `make` or a map literal and the maps decoded from a JSON object. The
nil map is the `none` of `GoMap`. -/
abbrev Values := AList (fun _ : String => String)

/-- The struct `session`: the identifier and the key/value mapping. -/
structure session where
  ID : String
  Values : Values

/-- The method `session.Get`: `str, ok := s.Values[key]`. -/
def session.Get (s : session) (key : String) : String × Bool :=
  match s.Values.lookup key with
  | some str => (str, true)
  | none => ("", false)

/-- The type `EventKind` is a Go `int`. -/
abbrev EventKind := Int

/-- The constant `EventSet` (`iota` 0) sets a key-value pair. -/
def EventSet : EventKind := 0

/-- The constant `EventDel` (`iota` 1) removes a key. -/
def EventDel : EventKind := 1

/-- The constant `EventDelAll` (`iota` 2) deletes every key-value pair but
those whose key is in the whitelist `Keys`. -/
def EventDelAll : EventKind := 2

/-- The constant `EventRefresh` (`iota` 3) refreshes the TTL of the session. -/
def EventRefresh : EventKind := 3

/-- The constant `EventDelClientState` (`iota` 4) deletes the client state. -/
def EventDelClientState : EventKind := 4

/-- The struct `Event`: an operation on a session. -/
structure Event where
  Kind : EventKind
  Key : String
  Val : String
  Keys : List String
  deriving DecidableEq, Repr

/-- The event `Set(k, v)`. -/
def evSet (k v : String) : Event := ⟨EventSet, k, v, []⟩

/-- The event `Del(k)`. -/
def evDel (k : String) : Event := ⟨EventDel, k, "", []⟩

/-- The event `DelAll(whitelist)`. -/
def evDelAll (whitelist : List String) : Event := ⟨EventDelAll, "", "", whitelist⟩

/-- The event `Refresh`. -/
def evRefresh : Event := ⟨EventRefresh, "", "", []⟩

/-- The event log of `TestApplyEvents`. -/
def testApplyEventsLog : List Event :=
  [evSet "key1" "value1", evSet "key2" "value2", evSet "key3" "value3",
    evSet "key4" "value4", evDel "key2", evDelAll ["key1", "key3"], evRefresh]

/-! ## Event reduction (`storage_overseer.go`, `applyEvents`) -/

/-- The innermost loop of the `EventDelAll` case: `for _, w := range ev.Keys`,
setting `whitelisted` and breaking at the first `w` with `k == w`. -/
def whitelisted (k : String) : List String → Bool
  | [] => false
  | w :: rest => if k == w then true else whitelisted k rest

/-- The body of the `EventDelAll` case: `for k := range sessionObj.Values`,
deleting `k` unless it is whitelisted. The loop deletes only the key it is
visiting, so it visits every key the map had on entry. -/
def delAll (values : Values) (keys : List String) : Values :=
  values.keys.foldl
    (fun (m : Values) (k : String) => if whitelisted k keys then m else m.erase k)
    values

/-- One iteration of the loop of `applyEvents`: the `switch ev.Kind` on the
current values and the current `doRefresh`. A kind with no case, such as
`EventDelClientState`, changes nothing. -/
def applyEvent (st : Values × Bool) (ev : Event) : Values × Bool :=
  if ev.Kind = EventSet then (st.1.insert ev.Key ev.Val, st.2)
  else if ev.Kind = EventDel then (st.1.erase ev.Key, st.2)
  else if ev.Kind = EventDelAll then (delAll st.1 ev.Keys, st.2)
  else if ev.Kind = EventRefresh then (st.1, true)
  else st

/-- The function `applyEvents`. The Go function updates the map of
`sessionObj` in place and returns `doRefresh`; here the session with its
updated map is returned together with `doRefresh`. -/
def applyEvents (sessionObj : session) (evs : List Event) : session × Bool :=
  let r := evs.foldl applyEvent (sessionObj.Values, false)
  (⟨sessionObj.ID, r.1⟩, r.2)

/-- A Go `map[string]string` value: `none` is the nil map, which
`json.Unmarshal` leaves in `sessValues` for the stored document `null`. -/
abbrev GoMap := Option Values

/-- One iteration of the loop of `applyEvents` on a map that may be nil:
`none` when the iteration panics. On a map that is not nil it is `applyEvent`.
On the nil map the assignment `sessionObj.Values[ev.Key] = ev.Val` of the
`EventSet` case panics (assignment to entry in nil map), the `delete` of the
`EventDel` case and the `range` of the `EventDelAll` case do nothing, and the
`EventRefresh` case sets `doRefresh`. -/
def applyEventNilable (st : GoMap × Bool) (ev : Event) : Option (GoMap × Bool) :=
  match st.1 with
  | some values =>
    some (some (applyEvent (values, st.2) ev).1, (applyEvent (values, st.2) ev).2)
  | none =>
    if ev.Kind = EventSet then none
    else if ev.Kind = EventDel then some (none, st.2)
    else if ev.Kind = EventDelAll then some (none, st.2)
    else if ev.Kind = EventRefresh then some (none, true)
    else some (none, st.2)

/-- The loop of `applyEvents` on a map that may be nil, from the state `st`:
`none` when an iteration panics, which ends the loop. -/
def applyEventsFrom : GoMap × Bool → List Event → Option (GoMap × Bool)
  | st, [] => some st
  | st, ev :: rest =>
    match applyEventNilable st ev with
    | none => none
    | some st1 => applyEventsFrom st1 rest

/-- The function `applyEvents` on the map of a session that may be nil: the
map it leaves behind and `doRefresh`, or `none` when it panics. On a map that
is not nil it is `applyEvents`. -/
def applyEventsNilable (values : GoMap) (evs : List Event) : Option (GoMap × Bool) :=
  applyEventsFrom (values, false) evs

/-! ## Collaborators of the commit -/

/-- The struct `CookieOptions`, with the fields the tests of the package set. -/
structure CookieOptions where
  Name : String
  MaxAge : Int
  Secure : Bool
  HTTPOnly : Bool
  deriving DecidableEq, Repr

/-- A cookie of a `Set-Cookie` header line. -/
structure Cookie where
  Name : String
  Value : String
  MaxAge : Int
  Secure : Bool
  HTTPOnly : Bool
  deriving DecidableEq, Repr

/-- Modelled from the spec: `CookieOptions.makeCookie`, whose file is not part
of the sources at hand. The cookie is named by the configuration, its value is
the session id, and `MaxAge`, `Secure` and `HTTPOnly` are taken verbatim from
the configuration. -/
def CookieOptions.makeCookie (o : CookieOptions) (id : String) : Cookie :=
  ⟨o.Name, id, o.MaxAge, o.Secure, o.HTTPOnly⟩

/-- Modelled from the spec: the cookie `CookieOptions.deleteCookie` emits,
whose file is not part of the sources at hand. Deleting the session emits a
cookie with a max-age below zero and no value. -/
def CookieOptions.deletionCookie (o : CookieOptions) : Cookie :=
  ⟨o.Name, "", -1, o.Secure, o.HTTPOnly⟩

/-- A call on the `Storer` interface, with its arguments. -/
inductive StorerCall where
  | All : StorerCall
  | Get (key : String) : StorerCall
  | Set (key value : String) : StorerCall
  | Del (key : String) : StorerCall
  | ResetExpiry (key : String) : StorerCall
  deriving DecidableEq, Repr

/-- The interface `Storer` over a store of type `σ`: every method that can
change the store returns its error (or `none` for `nil`) and the store it
leaves behind. -/
structure Storer (σ : Type) where
  All : σ → Except GoError (List String)
  Get : σ → String → Except GoError String
  Set : σ → String → String → Option GoError × σ
  Del : σ → String → Option GoError × σ
  ResetExpiry : σ → String → Option GoError × σ

/-- What a commit can act on: the store behind the `Storer`, the calls made on
the `Storer` so far (oldest first), and the `Set-Cookie` header lines of the
response writer `w` (oldest first). -/
structure World (σ : Type) where
  store : σ
  calls : List StorerCall
  header : List Cookie

/-- The call `s.Storer.Set(ctx, key, value)`, recorded in the world. -/
def storerSet {σ : Type} (st : Storer σ) (w : World σ) (key value : String) :
    Option GoError × World σ :=
  ((st.Set w.store key value).1,
    ⟨(st.Set w.store key value).2, w.calls ++ [StorerCall.Set key value], w.header⟩)

/-- The call `s.Storer.ResetExpiry(ctx, key)`, recorded in the world. -/
def storerResetExpiry {σ : Type} (st : Storer σ) (w : World σ) (key : String) :
    Option GoError × World σ :=
  ((st.ResetExpiry w.store key).1,
    ⟨(st.ResetExpiry w.store key).2, w.calls ++ [StorerCall.ResetExpiry key], w.header⟩)

/-- The call `http.SetCookie(w, cookie)`: one more `Set-Cookie` header line. -/
def httpSetCookie {σ : Type} (w : World σ) (cookie : Cookie) : World σ :=
  ⟨w.store, w.calls, w.header ++ [cookie]⟩

/-- Modelled from the spec: `CookieOptions.deleteCookie`, whose file is not
part of the sources at hand: it emits the cookie-deletion header on `w`. -/
def CookieOptions.deleteCookie {σ : Type} (o : CookieOptions) (w : World σ) : World σ :=
  httpSetCookie w o.deletionCookie

/-- The library functions a commit calls: `uuid.NewV4` followed by `String`
(the identifier minted by this call, or the error of the generator) and
`json.Marshal` on a `map[string]string`. -/
structure Libs where
  uuidNewV4 : Except GoError String
  jsonMarshal : Values → Except GoError String

/-- The struct `StorageOverseer`: a session storer and the cookie options. -/
structure StorageOverseer (σ : Type) where
  Storer : Storer σ
  options : CookieOptions

/-! ## Commit (`storage_overseer.go`, `StorageOverseer.WriteState`) -/

/-- The guard of the first statement of `WriteState`:
`len(evs) == 1 && evs[0].Kind == EventDelClientState`. -/
def isDestroyLog (evs : List Event) : Bool :=
  match evs with
  | [ev] => decide (ev.Kind = EventDelClientState)
  | _ => false

/-- The second block of `WriteState`: the session to commit and `isNew`. An
existing session is taken as it is; without one a fresh identifier is minted
and the values start empty. -/
def openSession (lib : Libs) (sess : Option session) : Except GoError (session × Bool) :=
  match sess with
  | some sessionObj => Except.ok (sessionObj, false)
  | none =>
    match lib.uuidNewV4 with
    | Except.error err => Except.error (GoError.wrap err "failed to create uuid for session")
    | Except.ok uuidID => Except.ok (⟨uuidID, ∅⟩, true)

/-- The statement `doRefresh := applyEvents(sessionObj, evs) && !isNew` of
`WriteState`: the reduced session and the effective `doRefresh`. -/
def reduceForCommit (sessionObj : session) (isNew : Bool) (evs : List Event) :
    session × Bool :=
  ((applyEvents sessionObj evs).1, (applyEvents sessionObj evs).2 && !isNew)

/-- The tail of `WriteState` from `json.Marshal` on: persist the values,
reset the expiry when `doRefresh`, set the cookie when `isNew || doRefresh`. -/
def persist {σ : Type} (lib : Libs) (s : StorageOverseer σ) (w : World σ)
    (sessionObj : session) (isNew doRefresh : Bool) : Option GoError × World σ :=
  match lib.jsonMarshal sessionObj.Values with
  | Except.error err =>
    (some (GoError.wrap err "failed to marshal session values to json"), w)
  | Except.ok encodedValues =>
    match storerSet s.Storer w sessionObj.ID encodedValues with
    | (some err, w1) => (some (GoError.wrap err "failed to store session values"), w1)
    | (none, w1) =>
      match (if doRefresh then storerResetExpiry s.Storer w1 sessionObj.ID
             else (none, w1)) with
      | (some err, w2) => (some (GoError.wrap err "failed to refresh session"), w2)
      | (none, w2) =>
        if isNew || doRefresh then
          (none, httpSetCookie w2 (s.options.makeCookie sessionObj.ID))
        else (none, w2)

/-- The method `StorageOverseer.WriteState`: the error it returns and the
world it leaves behind. `sess` is `none` for a `nil` session. -/
def WriteState {σ : Type} (lib : Libs) (s : StorageOverseer σ) (w : World σ)
    (sess : Option session) (evs : List Event) : Option GoError × World σ :=
  if isDestroyLog evs then (none, s.options.deleteCookie w)
  else
    match openSession lib sess with
    | Except.error err => (some err, w)
    | Except.ok (sessionObj, isNew) =>
      persist lib s w (reduceForCommit sessionObj isNew evs).1 isNew
        (reduceForCommit sessionObj isNew evs).2

/-! ## Error predicates (`sessions.go`) -/

/-- The function `errors.Cause`: the error under every `errors.Wrap` layer. -/
def GoError.Cause : GoError → GoError
  | GoError.wrap cause _ => cause.Cause
  | GoError.errNoSession => GoError.errNoSession
  | GoError.errNoMapKey => GoError.errNoMapKey
  | GoError.other msg => GoError.other msg

/-- The type assertion `err.(noSessionInterface)`: of the errors of the
package only `errNoSession` has the method `NoSession`. -/
def isNoSessionInterface : GoError → Bool
  | GoError.errNoSession => true
  | _ => false

/-- The type assertion `err.(noMapKeyInterface)`: of the errors of the
package only `errNoMapKey` has the method `NoMapKey`. -/
def isNoMapKeyInterface : GoError → Bool
  | GoError.errNoMapKey => true
  | _ => false

/-- The function `IsNoSessionError`. -/
def IsNoSessionError (err : GoError) : Bool :=
  if isNoSessionInterface err then true
  else isNoSessionInterface err.Cause

/-- The function `IsNoMapKeyError`. -/
def IsNoMapKeyError (err : GoError) : Bool :=
  if isNoMapKeyInterface err then true
  else isNoMapKeyInterface err.Cause

/-! ## Reading the session (`storage_overseer.go`, `StorageOverseer.ReadState`) -/

/-- The part of an `http.Request` the overseer reads: the cookies of the
request, each a name and a value. -/
structure Request where
  cookies : List (String × String)

/-- Modelled from the spec: `CookieOptions.getCookieValue`, whose file is not
part of the sources at hand. It extracts the value of the cookie named by the
configuration; an absent cookie is the no-session condition. -/
def CookieOptions.getCookieValue (o : CookieOptions) (r : Request) : Except GoError String :=
  match r.cookies.lookup o.Name with
  | some value => Except.ok value
  | none => Except.error GoError.errNoSession

/-- The call `s.Storer.Get(ctx, key)`, recorded in the world. -/
def storerGet {σ : Type} (st : Storer σ) (w : World σ) (key : String) :
    Except GoError String × World σ :=
  (st.Get w.store key, ⟨w.store, w.calls ++ [StorerCall.Get key], w.header⟩)

/-- The method `StorageOverseer.ReadState`: the session (`none` for a `nil`
session) or the error it returns, and the world it leaves behind.
`jsonUnmarshal` is the library call `json.Unmarshal` into a fresh
`map[string]string`. -/
def ReadState {σ : Type} (jsonUnmarshal : String → Except GoError Values)
    (s : StorageOverseer σ) (w : World σ) (r : Request) :
    Except GoError (Option session) × World σ :=
  match s.options.getCookieValue r with
  | Except.error err =>
    if IsNoSessionError err then (Except.ok none, w)
    else (Except.error err, w)
  | Except.ok id =>
    if !validKey (goBytes id) then (Except.error GoError.errNoSession, w)
    else
      match storerGet s.Storer w id with
      | (Except.error err, w1) => (Except.error err, w1)
      | (Except.ok encodedSession, w1) =>
        match jsonUnmarshal encodedSession with
        | Except.error err => (Except.error err, w1)
        | Except.ok sessValues => (Except.ok (some ⟨id, sessValues⟩), w1)

/-! ## The response writer (`response_writer.go`) -/

/-- The interface `Overseer`, acting on the world behind a response writer. -/
structure Overseer (σ : Type) where
  ReadState : World σ → Request → Except GoError (Option session) × World σ
  WriteState : World σ → Option session → List Event → Option GoError × World σ

/-- A `StorageOverseer` as an `Overseer`. -/
def StorageOverseer.toOverseer {σ : Type} (lib : Libs)
    (jsonUnmarshal : String → Except GoError Values) (s : StorageOverseer σ) : Overseer σ :=
  ⟨ReadState jsonUnmarshal s, WriteState lib s⟩

/-- A call the response writer makes on its collaborators: `WriteState` on the
overseer, with the error it returned, and `WriteHeader` and `Write` on the
wrapped response writer. -/
inductive SinkCall where
  | WriteState (result : Option GoError) : SinkCall
  | WriteHeader (code : Int) : SinkCall
  | Write (b : List Nat) : SinkCall
  deriving DecidableEq, Repr

/-- The struct `possesionsWriter`. `underlying` is the wrapped response
writer, given as the world its header lines live in; `trace` records the calls
made on the overseer and on the wrapped response writer, oldest first. -/
structure possesionsWriter (σ : Type) where
  underlying : World σ
  overseer : Overseer σ
  session : Option session
  hasWritten : Bool
  events : List Event
  trace : List SinkCall

/-- The function `newResponseWriter`: no session, nothing written, no event. -/
def newResponseWriter {σ : Type} (w : World σ) (overseer : Overseer σ) :
    possesionsWriter σ :=
  ⟨w, overseer, none, false, [], []⟩

/-- The method `possesionsWriter.writeClientState`: the error it returns and
the writer it leaves behind. `hasWritten` is set only after `WriteState` has
returned no error. -/
def possesionsWriter.writeClientState {σ : Type} (r : possesionsWriter σ) :
    Option GoError × possesionsWriter σ :=
  match r.overseer.WriteState r.underlying r.session r.events with
  | (some err, w1) =>
    (some err, ⟨w1, r.overseer, r.session, r.hasWritten, r.events,
      r.trace ++ [SinkCall.WriteState (some err)]⟩)
  | (none, w1) =>
    (none, ⟨w1, r.overseer, r.session, true, r.events,
      r.trace ++ [SinkCall.WriteState none]⟩)

/-- The method `possesionsWriter.WriteHeader`: `some err` when it panics with
`err`, and the writer it leaves behind. -/
def possesionsWriter.WriteHeader {σ : Type} (r : possesionsWriter σ) (code : Int) :
    Option GoError × possesionsWriter σ :=
  if !r.hasWritten then
    match r.writeClientState with
    | (some err, r1) => (some err, r1)
    | (none, r1) =>
      (none, ⟨r1.underlying, r1.overseer, r1.session, r1.hasWritten, r1.events,
        r1.trace ++ [SinkCall.WriteHeader code]⟩)
  else
    (none, ⟨r.underlying, r.overseer, r.session, r.hasWritten, r.events,
      r.trace ++ [SinkCall.WriteHeader code]⟩)

/-- The method `possesionsWriter.Write`, run for at most `fuel` nested calls:
the `(n, err)` it returns, or `none` when the call has not returned within
`fuel` calls, and the writer reached. The last statement of the method is
`return r.Write(b)`, a call of the method itself. -/
def possesionsWriter.Write {σ : Type} :
    Nat → possesionsWriter σ → List Nat → Option (Int × Option GoError) × possesionsWriter σ
  | 0, r, _ => (none, r)
  | fuel + 1, r, b =>
    if !r.hasWritten then
      match r.writeClientState with
      | (some err, r1) => (some (0, some err), r1)
      | (none, r1) => possesionsWriter.Write fuel r1 b
    else possesionsWriter.Write fuel r b

/-- A call on the response writer made by a handler. -/
inductive SinkOp where
  | WriteHeader (code : Int) : SinkOp
  | Write (b : List Nat) : SinkOp
  deriving DecidableEq, Repr

/-- One call on the response writer: whether the call ended (by returning or
by a panic) within `fuel` nested calls, and the writer it leaves behind. -/
def runOp {σ : Type} (fuel : Nat) (r : possesionsWriter σ) :
    SinkOp → Bool × possesionsWriter σ
  | SinkOp.WriteHeader code => (true, (r.WriteHeader code).2)
  | SinkOp.Write b => ((r.Write fuel b).1.isSome, (r.Write fuel b).2)

/-- A sequence of calls on one response writer; a call that does not end is
the last one made. -/
def runOps {σ : Type} (fuel : Nat) : possesionsWriter σ → List SinkOp → possesionsWriter σ
  | r, [] => r
  | r, op :: ops =>
    if (runOp fuel r op).1 then runOps fuel (runOp fuel r op).2 ops
    else (runOp fuel r op).2

/-- The results of the `WriteState` calls of a trace, oldest first. -/
def commitAttempts : List SinkCall → List (Option GoError)
  | [] => []
  | SinkCall.WriteState result :: rest => result :: commitAttempts rest
  | _ :: rest => commitAttempts rest

/-! ## The session facade (`sessions.go`) -/

/-- An `http.ResponseWriter` handed to the facade: the writer of this package,
a writer that wraps another one and gives it back through
`UnderlyingResponseWriter`, or a writer that is neither. -/
inductive ResponseWriter (σ : Type) where
  | sink (r : possesionsWriter σ) : ResponseWriter σ
  | wrapper (u : ResponseWriter σ) : ResponseWriter σ
  | plain (w : World σ) : ResponseWriter σ

/-- The function `getResponseWriter`: the writer of this package under the
wrappers, or `none` when it panics. -/
def getResponseWriter {σ : Type} : ResponseWriter σ → Option (possesionsWriter σ)
  | ResponseWriter.sink r => some r
  | ResponseWriter.wrapper u => getResponseWriter u
  | ResponseWriter.plain _ => none

/-- A write through the pointer `getResponseWriter` returns: the writer of
this package under the wrappers becomes `pw`. -/
def ResponseWriter.assign {σ : Type} (pw : possesionsWriter σ) :
    ResponseWriter σ → ResponseWriter σ
  | ResponseWriter.sink _ => ResponseWriter.sink pw
  | ResponseWriter.wrapper u => ResponseWriter.wrapper (ResponseWriter.assign pw u)
  | ResponseWriter.plain w => ResponseWriter.plain w

/-- The statements `pw := getResponseWriter(w)` and
`pw.events = append(pw.events, ev)` shared by the mutators; `none` when
`getResponseWriter` panics. -/
def appendEvent {σ : Type} (w : ResponseWriter σ) (ev : Event) : Option (ResponseWriter σ) :=
  match getResponseWriter w with
  | none => none
  | some pw =>
    some (ResponseWriter.assign
      ⟨pw.underlying, pw.overseer, pw.session, pw.hasWritten, pw.events ++ [ev], pw.trace⟩ w)

/-- The function `set`. -/
def set {σ : Type} (w : ResponseWriter σ) (key value : String) : Option (ResponseWriter σ) :=
  appendEvent w ⟨EventSet, key, value, []⟩

/-- The function `Set`. -/
def Set {σ : Type} (w : ResponseWriter σ) (key value : String) : Option (ResponseWriter σ) :=
  set w key value

/-- The function `SetObj`; `jsonMarshalObj` is the library call `json.Marshal`
on the object. The result is `none` when `getResponseWriter` panics. -/
def SetObj {σ α : Type} (jsonMarshalObj : α → Except GoError String)
    (w : ResponseWriter σ) (key : String) (obj : α) :
    Option (Option GoError × ResponseWriter σ) :=
  match jsonMarshalObj obj with
  | Except.error err => some (some err, w)
  | Except.ok value =>
    match set w key value with
    | none => none
    | some w1 => some (none, w1)

/-- The function `Del`. -/
def Del {σ : Type} (w : ResponseWriter σ) (key : String) : Option (ResponseWriter σ) :=
  appendEvent w ⟨EventDel, key, "", []⟩

/-- The function `DelAll`. -/
def DelAll {σ : Type} (w : ResponseWriter σ) (whitelist : List String) :
    Option (ResponseWriter σ) :=
  appendEvent w ⟨EventDelAll, "", "", whitelist⟩

/-- The function `Refresh`. -/
def Refresh {σ : Type} (w : ResponseWriter σ) : Option (ResponseWriter σ) :=
  appendEvent w ⟨EventRefresh, "", "", []⟩

/-- The function `AddFlash`. -/
def AddFlash {σ : Type} (w : ResponseWriter σ) (key value : String) :
    Option (ResponseWriter σ) :=
  Set w key value

/-- The function `AddFlashObj`. -/
def AddFlashObj {σ α : Type} (jsonMarshalObj : α → Except GoError String)
    (w : ResponseWriter σ) (key : String) (obj : α) :
    Option (Option GoError × ResponseWriter σ) :=
  SetObj jsonMarshalObj w key obj

/-- The value a request context caches under `CTXKeyPossessions`: `nil` or a
session. -/
abbrev Context := Option session

/-- The function `get`. -/
def get (ctx : Context) (key : String) : String × Bool :=
  match ctx with
  | none => ("", false)
  | some sess => sess.Get key

/-- The function `Get`. -/
def Get (ctx : Context) (key : String) : String × Bool :=
  get ctx key

/-- The function `GetObj`; `jsonUnmarshalObj` is the library call
`json.Unmarshal` into the object. -/
def GetObj {β : Type} (jsonUnmarshalObj : String → Except GoError β)
    (ctx : Context) (key : String) : Except GoError β :=
  match get ctx key with
  | (_, false) => Except.error GoError.errNoMapKey
  | (encodedString, true) =>
    match jsonUnmarshalObj encodedString with
    | Except.error err =>
      Except.error (GoError.wrap err "failed to unmarshal session key-value")
    | Except.ok obj => Except.ok obj

/-- The function `GetFlash`: the value and the found flag it returns and the
response writer it leaves behind; `none` when `getResponseWriter` panics. -/
def GetFlash {σ : Type} (w : ResponseWriter σ) (ctx : Context) (key : String) :
    Option ((String × Bool) × ResponseWriter σ) :=
  match Get ctx key with
  | (_, false) => some (("", false), w)
  | (flash, true) =>
    match Del w key with
    | none => none
    | some w1 => some ((flash, true), w1)

/-- The function `GetFlashObj`: the decoded object or the error it returns and
the response writer it leaves behind; `none` when `getResponseWriter`
panics. -/
def GetFlashObj {σ β : Type} (jsonUnmarshalObj : String → Except GoError β)
    (w : ResponseWriter σ) (ctx : Context) (key : String) :
    Option (Except GoError β × ResponseWriter σ) :=
  match Get ctx key with
  | (_, false) => some (Except.error GoError.errNoMapKey, w)
  | (flash, true) =>
    match Del w key with
    | none => none
    | some w1 =>
      match jsonUnmarshalObj flash with
      | Except.error err =>
        some (Except.error (GoError.wrap err "failed to unmarshal flash key-value string"), w1)
      | Except.ok obj => some (Except.ok obj, w1)

/-! ## The middleware (`response_writer.go`, `oversight.ServeHTTP`) -/

/-- The struct `oversight`: the wrapped handler and the overseer. A handler is
given the response writer, the value cached in the request context and the
request; what it does is its result. -/
structure oversight (σ α : Type) where
  handler : ResponseWriter σ → Context → Request → α
  overseer : Overseer σ

/-- The method `oversight.ServeHTTP` on the world behind the response writer
it is given: `Except.error err` when it panics with `err`, otherwise the
result of the wrapped handler on the new response writer and the session read
from the request. -/
def oversight.ServeHTTP {σ α : Type} (o : oversight σ α) (w : World σ) (r : Request) :
    Except GoError α :=
  match o.overseer.ReadState w r with
  | (Except.error err, _) =>
    Except.error (GoError.wrap err "failed to read session state")
  | (Except.ok session, w1) =>
    Except.ok (o.handler (ResponseWriter.sink (newResponseWriter w1 o.overseer)) session r)

/-- A chain of `errors.Wrap` layers around `err`, one for each message, the
first message innermost. -/
def wrapAll (err : GoError) : List String → GoError
  | [] => err
  | msg :: rest => wrapAll (GoError.wrap err msg) rest

/-! ## A store with expiry (`redis.go`, `RedisStorer`) -/

/-- A store with expiry: under each key a value and its time to live, `none`
for a record that does not expire. -/
abbrev TTLStore := AList (fun _ : String => String × Option Nat)

/-- The time to live of the record under a key, `none` without a record and
for a record that does not expire. -/
def ttlOf (st : TTLStore) (key : String) : Option Nat :=
  (st.lookup key).bind Prod.snd

/-- The methods of `RedisStorer` over a store with expiry. `Get` returns
`errNoSession` for a key without a record. `Set` is
`r.client.Set(ctx, key, value, r.maxAge)`: it writes the value with the time to
live `maxAge`, and without expiry when `maxAge` is zero. `ResetExpiry` is
`r.client.Expire(ctx, key, r.maxAge)`: on an existing record it sets the time
to live to `maxAge`, and removes the record when `maxAge` is zero; without a
record it does nothing. -/
def ttlStorer (maxAge : Nat) : Storer TTLStore where
  All := fun st => Except.ok st.keys
  Get := fun st key =>
    match st.lookup key with
    | some rec => Except.ok rec.1
    | none => Except.error GoError.errNoSession
  Set := fun st key value =>
    (none, st.insert key (value, if maxAge = 0 then none else some maxAge))
  Del := fun st key => (none, st.erase key)
  ResetExpiry := fun st key =>
    match st.lookup key with
    | some rec =>
      if maxAge = 0 then (none, st.erase key)
      else (none, st.insert key (rec.1, some maxAge))
    | none => (none, st)

/-! ## A concrete store for running commits -/

/-- A store that keeps the value last set under each key and accepts every
call. -/
def demoStorer : Storer (List (String × String)) where
  All := fun st => Except.ok (st.map Prod.fst)
  Get := fun st key =>
    match st.lookup key with
    | some v => Except.ok v
    | none => Except.error GoError.errNoSession
  Set := fun st key value => (none, (key, value) :: st.filter (fun e => e.1 != key))
  Del := fun st key => (none, st.filter (fun e => e.1 != key))
  ResetExpiry := fun st _ => (none, st)

/-- A stand-in for `json.Marshal` on the maps used in the examples: the
entries in map order, quoted, without escaping. -/
def demoMarshal (m : Values) : Except GoError String :=
  Except.ok ("\x7b" ++ ",".intercalate
    (m.entries.map (fun e => "\"" ++ e.1 ++ "\":\"" ++ e.2 ++ "\"")) ++ "\x7d")

/-- The libraries of the examples: the generator returns the identifier of the
package documentation. -/
def demoLibs : Libs :=
  ⟨Except.ok "a668b3bb-0cf1-4627-8cd4-7f62d09ebad6", demoMarshal⟩

/-- The overseer of the examples, with the cookie options of the tests. -/
def demoOverseer : StorageOverseer (List (String × String)) :=
  ⟨demoStorer, ⟨"id", 2, true, true⟩⟩

/-- An empty store, no call made, no header line written. -/
def emptyWorld : World (List (String × String)) := ⟨[], [], []⟩

/-- The session identifier of `TestWriteState` and `TestApplyEvents`. -/
def testID : String := "816a1acb-73aa-4a75-bbeb-f371bdad40e8"

/-- A stand-in for `json.Unmarshal` on the documents used in the examples: the
empty object and the object of `TestReadState`. -/
def demoUnmarshal (enc : String) : Except GoError Values :=
  if enc = "\x7b\x7d" then Except.ok ∅
  else if enc = "\x7b\"key\":\"value\"\x7d" then Except.ok (AList.singleton "key" "value")
  else Except.error (GoError.other "unexpected end of JSON input")

/-- A store whose `Set` fails on every call. -/
def failingStorer : Storer (List (String × String)) where
  All := fun st => Except.ok (st.map Prod.fst)
  Get := fun _ _ => Except.error (GoError.other "connection refused")
  Set := fun st _ _ => (some (GoError.other "connection refused"), st)
  Del := fun st _ => (some (GoError.other "connection refused"), st)
  ResetExpiry := fun st _ => (some (GoError.other "connection refused"), st)

/-- A fresh response writer over the overseer of the examples. -/
def demoSink : possesionsWriter (List (String × String)) :=
  newResponseWriter emptyWorld (demoOverseer.toOverseer demoLibs demoUnmarshal)

/-- A fresh response writer over an overseer whose store fails. -/
def failingSink : possesionsWriter (List (String × String)) :=
  newResponseWriter emptyWorld
    (StorageOverseer.toOverseer demoLibs demoUnmarshal ⟨failingStorer, ⟨"id", 2, true, true⟩⟩)

/-- The error `WriteState` returns over the failing store. -/
def storeFailure : GoError :=
  GoError.wrap (GoError.other "connection refused") "failed to store session values"

/-- The session of `TestGetAndGetObjAndGetFlashAndGetFlashObj`. -/
def testSession : session :=
  ⟨testID, ((((∅ : Values).insert "key1" "value1").insert "key2" "\"value2\"").insert
    "flash_key3" "value3").insert "flash_key4" "\"value4\""⟩

/-- An overseer over the store with expiry, with a max-age of two days in
seconds. -/
def ttlOverseer : StorageOverseer TTLStore :=
  ⟨ttlStorer 172800, ⟨"id", 2, true, true⟩⟩

/-- A handler that reports whether a session is attached to the request. -/
def demoHandler (_ : ResponseWriter (List (String × String))) (ctx : Context)
    (_ : Request) : Bool :=
  ctx.isSome

/-- The middleware of the examples around `demoHandler`. -/
def demoOversight : oversight (List (String × String)) Bool :=
  ⟨demoHandler, demoOverseer.toOverseer demoLibs demoUnmarshal⟩

/-- A handler that queues a flash value with `AddFlash(w, key, value)` and then
calls `w.WriteHeader(200)`: the world behind the response writer after the
commit, `none` when the handler panics. -/
def flashWriterHandler {σ : Type} (key value : String) (w : ResponseWriter σ)
    (_ : Context) (_ : Request) : Option (World σ) :=
  match AddFlash w key value with
  | none => none
  | some w1 =>
    match getResponseWriter w1 with
    | none => none
    | some pw =>
      match pw.WriteHeader 200 with
      | (some _, _) => none
      | (none, pw1) => some pw1.underlying

/-- A handler that reads a flash value with `GetFlash(w, ctx, key)` and then
calls `w.WriteHeader(200)`: what `GetFlash` returned and the world behind the
response writer after the commit, `none` when the handler panics. -/
def flashReaderHandler {σ : Type} (key : String) (w : ResponseWriter σ)
    (ctx : Context) (_ : Request) : Option ((String × Bool) × World σ) :=
  match GetFlash w ctx key with
  | none => none
  | some (res, w1) =>
    match getResponseWriter w1 with
    | none => none
    | some pw =>
      match pw.WriteHeader 200 with
      | (some _, _) => none
      | (none, pw1) => some (res, pw1.underlying)

/-- The libraries of the first request of the flash example: the generator
returns the identifier of the tests. -/
def firstLibs : Libs :=
  ⟨Except.ok testID, demoMarshal⟩

/-- The world after the first request of the flash example: the record of the
session under the identifier of the tests, holding the flash value. -/
def flashWorld : World (List (String × String)) :=
  ⟨[(testID, "\x7b\"key\":\"value\"\x7d")],
    [StorerCall.Set testID "\x7b\"key\":\"value\"\x7d"],
    [⟨"id", testID, 2, true, true⟩]⟩

/-- The world after the second request of the flash example. -/
def flashWorldAfterRead : World (List (String × String)) :=
  ⟨[("a668b3bb-0cf1-4627-8cd4-7f62d09ebad6", "\x7b\x7d"),
      (testID, "\x7b\"key\":\"value\"\x7d")],
    [StorerCall.Set testID "\x7b\"key\":\"value\"\x7d", StorerCall.Get testID,
      StorerCall.Set "a668b3bb-0cf1-4627-8cd4-7f62d09ebad6" "\x7b\x7d"],
    [⟨"id", testID, 2, true, true⟩,
      ⟨"id", "a668b3bb-0cf1-4627-8cd4-7f62d09ebad6", 2, true, true⟩]⟩

/-! ## Theorems -/

theorem atDashPos_eq_true (i : Nat) (ps : List Nat) :
    atDashPos i ps = true ↔ i ∈ ps := by
  induction ps with
  | nil => simp [atDashPos]
  | cons p rest ih =>
    by_cases h : i = p
    · simp [atDashPos, h]
    · simp [atDashPos, h, ih]

theorem validKeyLoop_cons (i c : Nat) (rest : List Nat) :
    validKeyLoop i (c :: rest) =
      (if atDashPos i dashPos == true then
        if c != 45 then false else validKeyLoop (i + 1) rest
      else if c < 48 || (c > 57 && c < 97) || c > 102 then false
      else validKeyLoop (i + 1) rest) := rfl

theorem validKeyLoop_eq_true (key : List Nat) :
    ∀ i : Nat, validKeyLoop i key = true ↔
      ∀ (j c : Nat), key[j]? = some c → byteOkAt (i + j) c := by
  induction key with
  | nil => intro i; simp [validKeyLoop]
  | cons c rest ih =>
    intro i
    have hstep : (∀ (j d : Nat), (c :: rest)[j]? = some d → byteOkAt (i + j) d) ↔
        byteOkAt i c ∧ ∀ (j d : Nat), rest[j]? = some d → byteOkAt (i + 1 + j) d := by
      constructor
      · intro h
        refine ⟨by simpa using h 0 c (by simp), ?_⟩
        intro j d hj
        have := h (j + 1) d (by simpa using hj)
        simpa [Nat.add_assoc, Nat.add_comm 1 j] using this
      · rintro ⟨h0, hr⟩ j d hj
        cases j with
        | zero =>
          simp at hj
          subst hj
          simpa using h0
        | succ j =>
          have := hr j d (by simpa using hj)
          simpa [Nat.add_assoc, Nat.add_comm 1 j] using this
    rw [hstep, ← ih (i + 1), validKeyLoop_cons]
    by_cases hd : i ∈ dashPos
    · have hd2 : i ∈ [8, 13, 18, 23] := hd
      by_cases hc : c = 45
      · simp [atDashPos_eq_true, hd, hc, byteOkAt, hd2]
      · simp [atDashPos_eq_true, hd, hc, byteOkAt, hd2]
    · have hd2 : i ∉ [8, 13, 18, 23] := hd
      have hd3 : ¬ atDashPos i dashPos = true := by
        rw [atDashPos_eq_true]; exact hd
      by_cases hc : (48 ≤ c ∧ c ≤ 57) ∨ (97 ≤ c ∧ c ≤ 102)
      · have hb : (decide (c < 48) || (decide (c > 57) && decide (c < 97))
            || decide (c > 102)) = false := by
          simp only [Bool.or_eq_false_iff, Bool.and_eq_false_iff, decide_eq_false_iff_not]
          omega
        simp [hd3, hb, byteOkAt, hd2, hc]
      · have hb : (decide (c < 48) || (decide (c > 57) && decide (c < 97))
            || decide (c > 102)) = true := by
          simp only [Bool.or_eq_true, Bool.and_eq_true, decide_eq_true_eq]
          omega
        simp [hd3, hb, byteOkAt, hd2, hc]

/-- C1: `validKey` accepts a key exactly when it has 36 bytes, the bytes at
positions 8, 13, 18 and 23 are dashes and every other byte is one of `0`..`9`
or `a`..`f`. In particular a key of 35 or 37 bytes, a key with another byte
than a dash at a dash position, a key with a dash elsewhere, a key with an
uppercase letter and a key with a byte that is neither a lowercase
hexadecimal digit nor a dash are all rejected. -/
theorem validKey_iff_canonical (key : List Nat) :
    (validKey key = true ↔
      key.length = 36 ∧
      ∀ (i c : Nat), key[i]? = some c →
        (i ∈ [8, 13, 18, 23] → c = 45) ∧
        (i ∉ [8, 13, 18, 23] → (48 ≤ c ∧ c ≤ 57) ∨ (97 ≤ c ∧ c ≤ 102))) ∧
    (key.length = 35 ∨ key.length = 37 → validKey key = false) ∧
    (∀ (p c : Nat), p ∈ [8, 13, 18, 23] → key[p]? = some c → c ≠ 45 →
      validKey key = false) ∧
    (∀ (i c : Nat), i ∉ [8, 13, 18, 23] → key[i]? = some c → c = 45 →
      validKey key = false) ∧
    (∀ c ∈ key, 65 ≤ c ∧ c ≤ 90 → validKey key = false) ∧
    (∀ c ∈ key, ¬ ((48 ≤ c ∧ c ≤ 57) ∨ (97 ≤ c ∧ c ≤ 102) ∨ c = 45) →
      validKey key = false) := by
  have main : validKey key = true ↔
      key.length = 36 ∧
      ∀ (i c : Nat), key[i]? = some c →
        (i ∈ [8, 13, 18, 23] → c = 45) ∧
        (i ∉ [8, 13, 18, 23] → (48 ≤ c ∧ c ≤ 57) ∨ (97 ≤ c ∧ c ≤ 102)) := by
    unfold validKey
    by_cases hlen : key.length = 36
    · have h := validKeyLoop_eq_true key 0
      simp only [Nat.zero_add, byteOkAt] at h
      simp [hlen, h]
    · simp [hlen]
  have rej : ∀ (i c : Nat), key[i]? = some c →
      ¬ ((i ∈ [8, 13, 18, 23] → c = 45) ∧
        (i ∉ [8, 13, 18, 23] → (48 ≤ c ∧ c ≤ 57) ∨ (97 ≤ c ∧ c ≤ 102))) →
      validKey key = false := by
    intro i c hic hbad
    rw [← Bool.not_eq_true]
    intro hv
    exact hbad ((main.mp hv).2 i c hic)
  refine ⟨main, ?_, ?_, ?_, ?_, ?_⟩
  · intro hlen
    rw [← Bool.not_eq_true]
    intro hv
    have := (main.mp hv).1
    omega
  · intro p c hp hpc hne
    exact rej p c hpc (fun h => hne (h.1 hp))
  · intro i c hi hic hc
    refine rej i c hic (fun h => ?_)
    have := h.2 hi
    omega
  · intro c hc hup
    obtain ⟨i, hi⟩ := List.getElem?_of_mem hc
    refine rej i c hi (fun h => ?_)
    by_cases hd : i ∈ [8, 13, 18, 23]
    · have := h.1 hd
      omega
    · have := h.2 hd
      omega
  · intro c hc hbad
    obtain ⟨i, hi⟩ := List.getElem?_of_mem hc
    refine rej i c hi (fun h => ?_)
    by_cases hd : i ∈ [8, 13, 18, 23]
    · exact hbad (Or.inr (Or.inr (h.1 hd)))
    · rcases h.2 hd with h1 | h1
      · exact hbad (Or.inl h1)
      · exact hbad (Or.inr (Or.inl h1))

/-- The example key of the package documentation is accepted and has the
canonical shape; a key of 35 bytes and a key with an uppercase letter are
rejected. -/
theorem validKey_iff_canonical_witness :
    validKey (goBytes "a668b3bb-0cf1-4627-8cd4-7f62d09ebad6") = true ∧
    ((goBytes "a668b3bb-0cf1-4627-8cd4-7f62d09ebad6").length = 36 ∧
      ∀ (i c : Nat), (goBytes "a668b3bb-0cf1-4627-8cd4-7f62d09ebad6")[i]? = some c →
        (i ∈ [8, 13, 18, 23] → c = 45) ∧
        (i ∉ [8, 13, 18, 23] → (48 ≤ c ∧ c ≤ 57) ∨ (97 ≤ c ∧ c ≤ 102))) ∧
    validKey (goBytes "a668b3bb-0cf1-4627-8cd4-7f62d09ebad") = false ∧
    validKey (goBytes "a668b3bb-0cf1-4627-8cd4-7f62d09ebad6f") = false ∧
    validKey (goBytes "a668b3bb0-cf1-4627-8cd4-7f62d09ebad6") = false ∧
    validKey (goBytes "A668b3bb-0cf1-4627-8cd4-7f62d09ebad6") = false ∧
    validKey (goBytes "g668b3bb-0cf1-4627-8cd4-7f62d09ebad6") = false :=
  ⟨by decide,
    (validKey_iff_canonical _).1.mp (by decide),
    (validKey_iff_canonical _).2.1 (Or.inl (by decide)),
    (validKey_iff_canonical _).2.1 (Or.inr (by decide)),
    (validKey_iff_canonical _).2.2.1 8 48 (by decide) (by decide) (by decide),
    (validKey_iff_canonical _).2.2.2.2.1 65 (by decide) (by decide),
    (validKey_iff_canonical _).2.2.2.2.2 103 (by decide) (by decide)⟩

/-! ### Event reduction -/

theorem whitelisted_eq_true (k : String) (ws : List String) :
    whitelisted k ws = true ↔ k ∈ ws := by
  induction ws with
  | nil => simp [whitelisted]
  | cons w rest ih =>
    by_cases h : k = w
    · simp [whitelisted, h]
    · simp [whitelisted, h, ih]

theorem lookup_foldl_delAll (keys : List String) (k : String) :
    ∀ (ks : List String) (m : Values),
      (ks.foldl (fun (m : Values) (k : String) =>
          if whitelisted k keys then m else m.erase k) m).lookup k =
        if k ∈ ks ∧ k ∉ keys then none else m.lookup k := by
  intro ks
  induction ks with
  | nil => intro m; simp
  | cons a rest ih =>
    intro m
    rw [List.foldl_cons, ih]
    by_cases hr : k ∈ rest ∧ k ∉ keys
    · have : k ∈ a :: rest ∧ k ∉ keys := ⟨List.mem_cons_of_mem _ hr.1, hr.2⟩
      simp [hr, this]
    · rw [if_neg hr]
      by_cases hw : a ∈ keys
      · have hwl : whitelisted a keys = true := (whitelisted_eq_true a keys).mpr hw
        have : ¬ (k ∈ a :: rest ∧ k ∉ keys) := by
          rintro ⟨hmem, hk⟩
          rcases List.mem_cons.mp hmem with h | h
          · exact hk (h ▸ hw)
          · exact hr ⟨h, hk⟩
        simp only [hwl, if_true]
        rw [if_neg this]
      · have hwl : whitelisted a keys = false := by
          rw [← Bool.not_eq_true, whitelisted_eq_true]; exact hw
        simp only [hwl, Bool.false_eq_true, if_false]
        by_cases hka : k = a
        · subst hka
          simp [hw]
        · have : ¬ (k ∈ a :: rest ∧ k ∉ keys) := by
            rintro ⟨hmem, hk⟩
            rcases List.mem_cons.mp hmem with h | h
            · exact hka h
            · exact hr ⟨h, hk⟩
          rw [if_neg this, AList.lookup_erase_ne hka]

theorem lookup_delAll (values : Values) (keys : List String) (k : String) :
    (delAll values keys).lookup k = if k ∈ keys then values.lookup k else none := by
  unfold delAll
  rw [lookup_foldl_delAll]
  by_cases hk : k ∈ keys
  · simp [hk]
  · by_cases hv : k ∈ values.keys
    · simp [hk, hv]
    · have : values.lookup k = none := AList.lookup_eq_none.mpr hv
      simp [hk, hv, this]

theorem applyEvent_pair (v : Values) (r : Bool) (ev : Event) :
    applyEvent (v, r) ev =
      ((applyEvent (v, false) ev).1, (r || decide (ev.Kind = EventRefresh))) := by
  simp only [applyEvent]
  split_ifs with h0 h1 h2 h3
  · simp [h0, EventSet, EventRefresh]
  · simp [h1, EventDel, EventRefresh]
  · simp [h2, EventDelAll, EventRefresh]
  · simp [h3]
  · simp [h3]

theorem foldl_applyEvent_fst (evs : List Event) :
    ∀ (v : Values) (r1 r2 : Bool),
      (evs.foldl applyEvent (v, r1)).1 = (evs.foldl applyEvent (v, r2)).1 := by
  induction evs with
  | nil => intro v r1 r2; rfl
  | cons ev rest ih =>
    intro v r1 r2
    rw [List.foldl_cons, List.foldl_cons, applyEvent_pair v r1, applyEvent_pair v r2]
    exact ih _ _ _

theorem foldl_applyEvent_snd (evs : List Event) :
    ∀ (v : Values) (r : Bool),
      (evs.foldl applyEvent (v, r)).2 =
        (r || evs.any (fun ev => decide (ev.Kind = EventRefresh))) := by
  induction evs with
  | nil => intro v r; simp
  | cons ev rest ih =>
    intro v r
    rw [List.foldl_cons, applyEvent_pair, ih, List.any_cons, Bool.or_assoc]

theorem applyEvents_append_values (sessionObj : session) (a b : List Event) :
    (applyEvents sessionObj (a ++ b)).1.Values =
      (applyEvents (applyEvents sessionObj a).1 b).1.Values := by
  simp only [applyEvents, List.foldl_append]
  exact foldl_applyEvent_fst _ _ _ _

theorem applyEvents_refresh (sessionObj : session) (evs : List Event) :
    (applyEvents sessionObj evs).2 =
      evs.any (fun ev => decide (ev.Kind = EventRefresh)) := by
  simp [applyEvents, foldl_applyEvent_snd]

theorem applyEvents_ID (sessionObj : session) (evs : List Event) :
    (applyEvents sessionObj evs).1.ID = sessionObj.ID := rfl

theorem applyEvents_singleton (sessionObj : session) (ev : Event) :
    (applyEvents sessionObj [ev]).1.Values = (applyEvent (sessionObj.Values, false) ev).1 := rfl

/-- C3: `DelAll` keeps exactly the whitelisted keys. Applying `DelAll(wl)` to a
map `V` yields the map whose keys are the keys of `V` that occur in `wl`, each
with its value in `V`. Reducing `[Set(k1, v1), DelAll([k1])]` against the empty
map yields the map holding `k1: v1` alone, and the log of `TestApplyEvents`
yields exactly the two keys `key1` and `key3` (and `doRefresh`). -/
theorem delAll_keeps_whitelist (id : String) (V : Values) (wl : List String)
    (key val : String) :
    (∀ k : String,
      k ∈ (applyEvents ⟨id, V⟩ [⟨EventDelAll, key, val, wl⟩]).1.Values ↔ k ∈ V ∧ k ∈ wl) ∧
    (∀ k : String,
      (applyEvents ⟨id, V⟩ [⟨EventDelAll, key, val, wl⟩]).1.Values.lookup k =
        if k ∈ wl then V.lookup k else none) ∧
    (∀ k1 v1 : String,
      (applyEvents ⟨id, ∅⟩ [evSet k1 v1, evDelAll [k1]]).1.Values.entries = [⟨k1, v1⟩]) ∧
    ((applyEvents ⟨id, ∅⟩ testApplyEventsLog).1.Values.keys.length = 2 ∧
      (∀ k : String,
        k ∈ (applyEvents ⟨id, ∅⟩ testApplyEventsLog).1.Values ↔ k = "key1" ∨ k = "key3") ∧
      (applyEvents ⟨id, ∅⟩ testApplyEventsLog).2 = true) := by
  have hlook : ∀ k : String,
      (applyEvents ⟨id, V⟩ [⟨EventDelAll, key, val, wl⟩]).1.Values.lookup k =
        if k ∈ wl then V.lookup k else none := by
    intro k
    rw [applyEvents_singleton]
    simp [applyEvent, EventDelAll, EventSet, EventDel, lookup_delAll]
  refine ⟨?_, hlook, ?_, ?_⟩
  · intro k
    rw [← AList.lookup_isSome, hlook k, ← AList.lookup_isSome]
    by_cases hk : k ∈ wl
    · simp [hk]
    · simp [hk]
  · intro k1 v1
    simp [applyEvents, applyEvent, evSet, evDelAll, EventDelAll, EventSet, EventDel,
      delAll, whitelisted]
  · have hkeys : (applyEvents ⟨id, ∅⟩ testApplyEventsLog).1.Values.keys = ["key3", "key1"] := by rfl
    refine ⟨by rw [hkeys]; rfl, ?_, by rfl⟩
    intro k
    rw [AList.mem_keys, hkeys]
    simp [or_comm]

/-- C4: `Del` removes one key and nothing else. After `Del(k)` the key `k` is
absent, every other key has the presence and value it had, and a map that did
not hold `k` is unchanged. -/
theorem del_removes_only_key (id : String) (V : Values) (k val : String)
    (keys : List String) :
    k ∉ (applyEvents ⟨id, V⟩ [⟨EventDel, k, val, keys⟩]).1.Values ∧
    (∀ k2 : String, k2 ≠ k →
      (applyEvents ⟨id, V⟩ [⟨EventDel, k, val, keys⟩]).1.Values.lookup k2 = V.lookup k2) ∧
    (∀ k2 : String, k2 ≠ k →
      (k2 ∈ (applyEvents ⟨id, V⟩ [⟨EventDel, k, val, keys⟩]).1.Values ↔ k2 ∈ V)) ∧
    (k ∉ V → (applyEvents ⟨id, V⟩ [⟨EventDel, k, val, keys⟩]).1.Values = V) := by
  have hv : (applyEvents ⟨id, V⟩ [⟨EventDel, k, val, keys⟩]).1.Values = V.erase k := by
    rw [applyEvents_singleton]
    simp [applyEvent, EventSet, EventDel]
  rw [hv]
  refine ⟨?_, ?_, ?_, ?_⟩
  · simp [AList.mem_erase]
  · intro k2 h
    exact AList.lookup_erase_ne h
  · intro k2 h
    simp [AList.mem_erase, h]
  · intro h
    apply AList.ext
    rw [AList.mem_keys] at h
    simpa using List.kerase_of_not_mem_keys h

/-- A map holding `a` alone: deleting `c` leaves it unchanged and leaves `a`
readable. -/
theorem del_removes_only_key_witness :
    (applyEvents ⟨"id", (∅ : Values).insert "a" "b"⟩ [evDel "c"]).1.Values.lookup "a" =
        ((∅ : Values).insert "a" "b").lookup "a" ∧
    (applyEvents ⟨"id", (∅ : Values).insert "a" "b"⟩ [evDel "c"]).1.Values =
        (∅ : Values).insert "a" "b" :=
  ⟨(del_removes_only_key "id" ((∅ : Values).insert "a" "b") "c" "" []).2.1 "a" (by decide),
    (del_removes_only_key "id" ((∅ : Values).insert "a" "b") "c" "" []).2.2.2 (by decide)⟩

/-! ### Commit -/

theorem persist_calls {σ : Type} (lib : Libs) (s : StorageOverseer σ) (w : World σ)
    (sessionObj : session) (isNew doRefresh : Bool) :
    (persist lib s w sessionObj isNew doRefresh).2.calls =
      w.calls ++
        (match lib.jsonMarshal sessionObj.Values with
          | Except.error _ => []
          | Except.ok encodedValues =>
            StorerCall.Set sessionObj.ID encodedValues ::
              (if (s.Storer.Set w.store sessionObj.ID encodedValues).1 = none ∧
                  doRefresh = true
                then [StorerCall.ResetExpiry sessionObj.ID] else [])) := by
  unfold persist
  cases hm : lib.jsonMarshal sessionObj.Values with
  | error err => simp
  | ok enc =>
    cases hs : (s.Storer.Set w.store sessionObj.ID enc).1 with
    | some err => simp [storerSet, hs]
    | none =>
      cases doRefresh with
      | false =>
        cases isNew <;> simp [storerSet, hs, httpSetCookie]
      | true =>
        cases hr : (s.Storer.ResetExpiry (s.Storer.Set w.store sessionObj.ID enc).2
            sessionObj.ID).1 with
        | some err => simp [storerSet, storerResetExpiry, hs, hr]
        | none => simp [storerSet, storerResetExpiry, hs, hr, httpSetCookie]

theorem persist_header {σ : Type} (lib : Libs) (s : StorageOverseer σ) (w : World σ)
    (sessionObj : session) (isNew doRefresh : Bool) :
    (persist lib s w sessionObj isNew doRefresh).2.header =
      if (persist lib s w sessionObj isNew doRefresh).1 = none ∧
          (isNew || doRefresh) = true
      then w.header ++ [s.options.makeCookie sessionObj.ID] else w.header := by
  unfold persist
  cases hm : lib.jsonMarshal sessionObj.Values with
  | error err => simp
  | ok enc =>
    cases hs : (s.Storer.Set w.store sessionObj.ID enc).1 with
    | some err => simp [storerSet, hs]
    | none =>
      cases doRefresh with
      | false =>
        cases isNew <;> simp [storerSet, hs, httpSetCookie]
      | true =>
        cases hr : (s.Storer.ResetExpiry (s.Storer.Set w.store sessionObj.ID enc).2
            sessionObj.ID).1 with
        | some err => simp [storerSet, storerResetExpiry, hs, hr]
        | none => simp [storerSet, storerResetExpiry, hs, hr, httpSetCookie]

theorem persist_ok {σ : Type} (lib : Libs) (s : StorageOverseer σ) (w : World σ)
    (sessionObj : session) (isNew doRefresh : Bool) (enc : String)
    (hm : lib.jsonMarshal sessionObj.Values = Except.ok enc)
    (hs : (s.Storer.Set w.store sessionObj.ID enc).1 = none)
    (hr : doRefresh = true →
      (s.Storer.ResetExpiry (s.Storer.Set w.store sessionObj.ID enc).2 sessionObj.ID).1
        = none) :
    (persist lib s w sessionObj isNew doRefresh).1 = none := by
  unfold persist
  cases doRefresh with
  | false => cases isNew <;> simp [hm, storerSet, hs, httpSetCookie]
  | true => simp [hm, storerSet, storerResetExpiry, hs, hr rfl, httpSetCookie]

theorem writeState_not_destroy {σ : Type} (lib : Libs) (s : StorageOverseer σ)
    (w : World σ) (sess : Option session) (evs : List Event)
    (h : isDestroyLog evs = false) :
    WriteState lib s w sess evs =
      match openSession lib sess with
      | Except.error err => (some err, w)
      | Except.ok (sessionObj, isNew) =>
        persist lib s w (reduceForCommit sessionObj isNew evs).1 isNew
          (reduceForCommit sessionObj isNew evs).2 := by
  simp [WriteState, h]

/-- C6: new-session override. With no session and a log that is not the single
destroy event, the effective `doRefresh` is false whatever the log holds, and
the commit makes no `Storer.ResetExpiry` call. -/
theorem new_session_never_refreshes {σ : Type} (lib : Libs) (s : StorageOverseer σ)
    (w : World σ) (evs : List Event) (h : isDestroyLog evs = false) :
    (∀ sessionObj : session, (reduceForCommit sessionObj true evs).2 = false) ∧
    ∃ new : List StorerCall,
      (WriteState lib s w none evs).2.calls = w.calls ++ new ∧
      ∀ key : String, StorerCall.ResetExpiry key ∉ new := by
  constructor
  · intro sessionObj
    simp [reduceForCommit]
  · rw [writeState_not_destroy lib s w none evs h]
    cases hu : lib.uuidNewV4 with
    | error err => exact ⟨[], by simp [openSession, hu], by simp⟩
    | ok id =>
      simp only [openSession, hu]
      rw [persist_calls]
      refine ⟨_, rfl, ?_⟩
      intro key
      cases lib.jsonMarshal (reduceForCommit ⟨id, ∅⟩ true evs).1.Values with
      | error err => simp
      | ok enc => simp [reduceForCommit]

/-- A new session whose log is a single `Refresh`: the commit stores the empty
map and never resets the expiry. -/
theorem new_session_never_refreshes_witness :
    isDestroyLog [evRefresh] = false ∧
    (∀ sessionObj : session, (reduceForCommit sessionObj true [evRefresh]).2 = false) ∧
    ∃ new : List StorerCall,
      (WriteState demoLibs demoOverseer emptyWorld none [evRefresh]).2.calls =
        emptyWorld.calls ++ new ∧
      ∀ key : String, StorerCall.ResetExpiry key ∉ new :=
  ⟨by decide, new_session_never_refreshes demoLibs demoOverseer emptyWorld [evRefresh]
    (by decide)⟩

/-- C7: destroy short-circuit. For every session, present or absent, a log
that is exactly one `EventDelClientState` event makes `WriteState` return no
error, add the cookie-deletion header line (no value, max-age below zero) and
nothing else to the header, make no `Storer` call and leave the store as it
was. -/
theorem destroy_short_circuit {σ : Type} (lib : Libs) (s : StorageOverseer σ)
    (w : World σ) (sess : Option session) (key val : String) (keys : List String) :
    (WriteState lib s w sess [⟨EventDelClientState, key, val, keys⟩]).1 = none ∧
    (WriteState lib s w sess [⟨EventDelClientState, key, val, keys⟩]).2.header =
      w.header ++ [s.options.deletionCookie] ∧
    s.options.deletionCookie.Value = "" ∧
    s.options.deletionCookie.MaxAge < 0 ∧
    (WriteState lib s w sess [⟨EventDelClientState, key, val, keys⟩]).2.calls = w.calls ∧
    (WriteState lib s w sess [⟨EventDelClientState, key, val, keys⟩]).2.store = w.store := by
  simp [WriteState, isDestroyLog, CookieOptions.deleteCookie, httpSetCookie,
    CookieOptions.deletionCookie]

/-- C8: cookie issuance rule. After a successful `WriteState` that is not the
destroy short-circuit, the header has gained a `Set-Cookie` line exactly when
the session is new or the log holds a `Refresh` event; the line is the cookie
made for the session id (the id of the existing session, or the identifier
minted for the new one); for an existing session whose log holds no `Refresh`
event the header is as it was. -/
theorem cookie_issuance_rule {σ : Type} (lib : Libs) (s : StorageOverseer σ)
    (w w2 : World σ) (sess : Option session) (evs : List Event)
    (hnd : isDestroyLog evs = false)
    (hok : WriteState lib s w sess evs = (none, w2)) :
    (w2.header ≠ w.header ↔ (sess = none ∨ ∃ ev ∈ evs, ev.Kind = EventRefresh)) ∧
    (∀ sessionObj : session, sess = some sessionObj →
      (∃ ev ∈ evs, ev.Kind = EventRefresh) →
      w2.header = w.header ++ [s.options.makeCookie sessionObj.ID] ∧
      (s.options.makeCookie sessionObj.ID).Value = sessionObj.ID) ∧
    (sess = none →
      ∃ id : String, lib.uuidNewV4 = Except.ok id ∧
        w2.header = w.header ++ [s.options.makeCookie id] ∧
        (s.options.makeCookie id).Value = id) ∧
    (∀ sessionObj : session, sess = some sessionObj →
      (¬ ∃ ev ∈ evs, ev.Kind = EventRefresh) → w2.header = w.header) := by
  rw [writeState_not_destroy lib s w sess evs hnd] at hok
  have hany : (evs.any (fun ev => decide (ev.Kind = EventRefresh)) = true) ↔
      ∃ ev ∈ evs, ev.Kind = EventRefresh := by simp
  cases sess with
  | some sessionObj =>
    simp only [openSession] at hok
    have hh := persist_header lib s w (reduceForCommit sessionObj false evs).1 false
      (reduceForCommit sessionObj false evs).2
    rw [hok] at hh
    simp only [reduceForCommit, applyEvents_refresh, applyEvents_ID, Bool.not_false,
      Bool.and_true, Bool.false_or, true_and] at hh
    by_cases hr : ∃ ev ∈ evs, ev.Kind = EventRefresh
    · rw [if_pos (hany.mpr hr)] at hh
      refine ⟨?_, ?_, by simp, ?_⟩
      · simp [hh, hr]
      · intro so hso _
        cases hso
        exact ⟨hh, rfl⟩
      · intro so _ hno
        exact absurd hr hno
    · rw [if_neg (fun hb => hr (hany.mp hb))] at hh
      refine ⟨?_, ?_, by simp, ?_⟩
      · simp [hh, hr]
      · intro so _ hyes
        exact absurd hyes hr
      · intro so _ _
        exact hh
  | none =>
    cases hu : lib.uuidNewV4 with
    | error err => simp [openSession, hu] at hok
    | ok id =>
      simp only [openSession, hu] at hok
      have hh := persist_header lib s w (reduceForCommit ⟨id, ∅⟩ true evs).1 true
        (reduceForCommit ⟨id, ∅⟩ true evs).2
      rw [hok] at hh
      simp only [reduceForCommit, applyEvents_ID, Bool.true_or, and_self, if_true] at hh
      refine ⟨by simp [hh], by simp, ?_, by simp⟩
      intro _
      exact ⟨id, rfl, hh, rfl⟩

/-- The commit of `TestWriteState`, an existing session with the log
`[Set(key, value)]`: it succeeds and leaves the header as it was. -/
theorem cookie_issuance_rule_witness :
    isDestroyLog [evSet "key" "value"] = false ∧
    WriteState demoLibs demoOverseer emptyWorld (some ⟨testID, ∅⟩) [evSet "key" "value"] =
      (none, ⟨[(testID, "\x7b\"key\":\"value\"\x7d")],
        [StorerCall.Set testID "\x7b\"key\":\"value\"\x7d"], []⟩) ∧
    (⟨[(testID, "\x7b\"key\":\"value\"\x7d")],
        [StorerCall.Set testID "\x7b\"key\":\"value\"\x7d"], []⟩ :
          World (List (String × String))).header = emptyWorld.header :=
  ⟨by decide, by rfl,
    (cookie_issuance_rule demoLibs demoOverseer emptyWorld _ (some ⟨testID, ∅⟩)
      [evSet "key" "value"] (by decide) (by rfl)).2.2.2 ⟨testID, ∅⟩ rfl (by decide)⟩

theorem reduce_new_set (id k v : String) (keys : List String) (isNew : Bool) :
    (reduceForCommit ⟨id, ∅⟩ isNew [⟨EventSet, k, v, keys⟩]).1 =
      ⟨id, AList.singleton k v⟩ := by
  simp [reduceForCommit, applyEvents, applyEvent]

/-- C9: new-session commit. With no session and the log `[Set(k, v)]`, once
the generator has minted the identifier `id` and `json.Marshal` has encoded
the map holding `k: v` alone as `enc`, `WriteState` makes exactly one `Storer`
call, `Set(id, enc)`; when that call returns no error, `WriteState` returns no
error and the header gains exactly one `Set-Cookie` line, whose value is the
same `id`. -/
theorem new_session_commit {σ : Type} (lib : Libs) (s : StorageOverseer σ) (w : World σ)
    (k v id enc : String) (keys : List String)
    (hid : lib.uuidNewV4 = Except.ok id)
    (henc : lib.jsonMarshal (AList.singleton k v) = Except.ok enc) :
    (AList.singleton k v : Values).entries = [⟨k, v⟩] ∧
    (WriteState lib s w none [⟨EventSet, k, v, keys⟩]).2.calls =
      w.calls ++ [StorerCall.Set id enc] ∧
    ((s.Storer.Set w.store id enc).1 = none →
      (WriteState lib s w none [⟨EventSet, k, v, keys⟩]).1 = none ∧
      (WriteState lib s w none [⟨EventSet, k, v, keys⟩]).2.header =
        w.header ++ [s.options.makeCookie id] ∧
      (s.options.makeCookie id).Value = id) := by
  have hnd : isDestroyLog [(⟨EventSet, k, v, keys⟩ : Event)] = false := by
    simp [isDestroyLog, EventSet, EventDelClientState]
  have hw := writeState_not_destroy lib s w none [⟨EventSet, k, v, keys⟩] hnd
  simp only [openSession, hid] at hw
  have hred := reduce_new_set id k v keys true
  have hdr : (reduceForCommit ⟨id, ∅⟩ true [⟨EventSet, k, v, keys⟩]).2 = false := by
    simp [reduceForCommit]
  rw [hred, hdr] at hw
  rw [hw]
  refine ⟨rfl, ?_, ?_⟩
  · rw [persist_calls]
    simp [henc]
  · intro hset
    have hok : (persist lib s w ⟨id, AList.singleton k v⟩ true false).1 = none :=
      persist_ok lib s w ⟨id, AList.singleton k v⟩ true false enc henc hset (by simp)
    refine ⟨hok, ?_, rfl⟩
    rw [persist_header]
    simp [hok]

/-- A request without a session whose handler sets `k` to `v`: one record is
stored under the minted identifier and one cookie carries that identifier. -/
theorem new_session_commit_witness :
    (WriteState demoLibs demoOverseer emptyWorld none [evSet "k" "v"]).2.calls =
      [StorerCall.Set "a668b3bb-0cf1-4627-8cd4-7f62d09ebad6" "\x7b\"k\":\"v\"\x7d"] ∧
    (WriteState demoLibs demoOverseer emptyWorld none [evSet "k" "v"]).1 = none ∧
    (WriteState demoLibs demoOverseer emptyWorld none [evSet "k" "v"]).2.header =
      [⟨"id", "a668b3bb-0cf1-4627-8cd4-7f62d09ebad6", 2, true, true⟩] :=
  ⟨(new_session_commit demoLibs demoOverseer emptyWorld "k" "v"
      "a668b3bb-0cf1-4627-8cd4-7f62d09ebad6" "\x7b\"k\":\"v\"\x7d" [] rfl (by rfl)).2.1,
    ((new_session_commit demoLibs demoOverseer emptyWorld "k" "v"
      "a668b3bb-0cf1-4627-8cd4-7f62d09ebad6" "\x7b\"k\":\"v\"\x7d" [] rfl (by rfl)).2.2
        rfl).1,
    ((new_session_commit demoLibs demoOverseer emptyWorld "k" "v"
      "a668b3bb-0cf1-4627-8cd4-7f62d09ebad6" "\x7b\"k\":\"v\"\x7d" [] rfl (by rfl)).2.2
        rfl).2.1⟩

/-- C10, as stated, fails: an existing session holding `k: v` with the log
`[Del(k), Refresh]` over a store that accepts every call. The commit stores the
empty object under the id and resets the expiry, and the header does gain a
`Set-Cookie` line carrying the id. -/
theorem existing_refresh_emits_cookie :
    (WriteState demoLibs demoOverseer emptyWorld (some ⟨testID, AList.singleton "k" "v"⟩)
        [evDel "k", evRefresh]).1 = none ∧
    (WriteState demoLibs demoOverseer emptyWorld (some ⟨testID, AList.singleton "k" "v"⟩)
        [evDel "k", evRefresh]).2.calls =
      [StorerCall.Set testID "\x7b\x7d", StorerCall.ResetExpiry testID] ∧
    (WriteState demoLibs demoOverseer emptyWorld (some ⟨testID, AList.singleton "k" "v"⟩)
        [evDel "k", evRefresh]).2.header = [⟨"id", testID, 2, true, true⟩] ∧
    (WriteState demoLibs demoOverseer emptyWorld (some ⟨testID, AList.singleton "k" "v"⟩)
        [evDel "k", evRefresh]).2.header ≠ emptyWorld.header := by
  refine ⟨by rfl, by rfl, by rfl, ?_⟩
  have h : (WriteState demoLibs demoOverseer emptyWorld
      (some ⟨testID, AList.singleton "k" "v"⟩) [evDel "k", evRefresh]).2.header =
        [⟨"id", testID, 2, true, true⟩] := by rfl
  rw [h]
  simp [emptyWorld]

theorem reduce_del_refresh (i k v val1 key2 val2 : String) (keys1 keys2 : List String) :
    reduceForCommit ⟨i, AList.singleton k v⟩ false
        [⟨EventDel, k, val1, keys1⟩, ⟨EventRefresh, key2, val2, keys2⟩] =
      (⟨i, ∅⟩, true) := by
  have : (AList.singleton k v : Values).erase k = ∅ := by
    apply AList.ext
    exact List.kerase_cons_eq (rfl : k = (Sigma.mk k v : Sigma (fun _ : String => String)).1)
  simp [reduceForCommit, applyEvents, applyEvent, EventSet, EventDel, EventDelAll,
    EventRefresh, this]

/-- C10, amended: for an existing session with id `i` and values holding
`k: v` alone, `WriteState` with the log `[Del(k), Refresh]` calls
`Storer.Set` with `i` and the encoding of the empty map; when that call
returns no error it calls `Storer.ResetExpiry(i)` and makes no further
`Storer` call; when that call too returns no error, `WriteState` returns no
error and the header gains one `Set-Cookie` line, carrying the same id `i`. -/
theorem existing_del_refresh_commit {σ : Type} (lib : Libs) (s : StorageOverseer σ)
    (w : World σ) (i k v enc val1 key2 val2 : String) (keys1 keys2 : List String)
    (henc : lib.jsonMarshal (∅ : Values) = Except.ok enc)
    (hset : (s.Storer.Set w.store i enc).1 = none) :
    (WriteState lib s w (some ⟨i, AList.singleton k v⟩)
        [⟨EventDel, k, val1, keys1⟩, ⟨EventRefresh, key2, val2, keys2⟩]).2.calls =
      w.calls ++ [StorerCall.Set i enc, StorerCall.ResetExpiry i] ∧
    ((s.Storer.ResetExpiry (s.Storer.Set w.store i enc).2 i).1 = none →
      (WriteState lib s w (some ⟨i, AList.singleton k v⟩)
        [⟨EventDel, k, val1, keys1⟩, ⟨EventRefresh, key2, val2, keys2⟩]).1 = none ∧
      (WriteState lib s w (some ⟨i, AList.singleton k v⟩)
        [⟨EventDel, k, val1, keys1⟩, ⟨EventRefresh, key2, val2, keys2⟩]).2.header =
          w.header ++ [s.options.makeCookie i] ∧
      (s.options.makeCookie i).Value = i) := by
  have hnd : isDestroyLog [(⟨EventDel, k, val1, keys1⟩ : Event),
      ⟨EventRefresh, key2, val2, keys2⟩] = false := by
    simp [isDestroyLog]
  have hw := writeState_not_destroy lib s w (some ⟨i, AList.singleton k v⟩)
    [⟨EventDel, k, val1, keys1⟩, ⟨EventRefresh, key2, val2, keys2⟩] hnd
  simp only [openSession, reduce_del_refresh] at hw
  rw [hw]
  constructor
  · rw [persist_calls]
    simp [henc, hset]
  · intro hreset
    have hok : (persist lib s w ⟨i, ∅⟩ false true).1 = none :=
      persist_ok lib s w ⟨i, ∅⟩ false true enc henc hset (fun _ => hreset)
    refine ⟨hok, ?_, rfl⟩
    rw [persist_header]
    simp [hok]

/-- The amended C10 on a store that accepts every call: the record under the
id becomes the empty object, the expiry is reset and the cookie is issued
again. -/
theorem existing_del_refresh_commit_witness :
    (WriteState demoLibs demoOverseer emptyWorld (some ⟨testID, AList.singleton "k" "v"⟩)
        [evDel "k", evRefresh]).2.calls =
      emptyWorld.calls ++ [StorerCall.Set testID "\x7b\x7d", StorerCall.ResetExpiry testID] ∧
    (WriteState demoLibs demoOverseer emptyWorld (some ⟨testID, AList.singleton "k" "v"⟩)
        [evDel "k", evRefresh]).2.header =
      emptyWorld.header ++ [demoOverseer.options.makeCookie testID] :=
  ⟨(existing_del_refresh_commit demoLibs demoOverseer emptyWorld testID "k" "v"
      "\x7b\x7d" "" "" "" [] [] (by rfl) rfl).1,
    ((existing_del_refresh_commit demoLibs demoOverseer emptyWorld testID "k" "v"
      "\x7b\x7d" "" "" "" [] [] (by rfl) rfl).2 rfl).2.1⟩

/-! ### Persistence of an existing session -/

theorem persist_none {σ : Type} (lib : Libs) (s : StorageOverseer σ) (w w2 : World σ)
    (sessionObj : session) (isNew doRefresh : Bool)
    (hok : persist lib s w sessionObj isNew doRefresh = (none, w2)) :
    ∃ enc : String, lib.jsonMarshal sessionObj.Values = Except.ok enc ∧
      (s.Storer.Set w.store sessionObj.ID enc).1 = none ∧
      w2.calls = w.calls ++ StorerCall.Set sessionObj.ID enc ::
        (if doRefresh = true then [StorerCall.ResetExpiry sessionObj.ID] else []) := by
  have hc := persist_calls lib s w sessionObj isNew doRefresh
  have h1 : (persist lib s w sessionObj isNew doRefresh).1 = none := by rw [hok]
  rw [hok] at hc
  cases hm : lib.jsonMarshal sessionObj.Values with
  | error err =>
    unfold persist at h1
    simp [hm] at h1
  | ok enc =>
    cases hs : (s.Storer.Set w.store sessionObj.ID enc).1 with
    | some err =>
      unfold persist at h1
      simp [hm, storerSet, hs] at h1
    | none =>
      refine ⟨enc, rfl, hs, ?_⟩
      simp only [hm, hs, true_and] at hc
      exact hc

/-- C11: existing-session persistence. For an existing session with id `i`
and values `M` and a log that is not the single destroy event, a `WriteState`
that returns no error has called `Storer.Set` exactly once, with the key `i`
and the encoding `json.Marshal` gives for the values obtained by reducing the
log against `M`; any other call it made is `ResetExpiry(i)`. With the id of
`TestWriteState`, empty values and the log `[Set(key, value)]`, the value
stored under that id is the encoding of the map holding `key: value` alone. -/
theorem existing_session_persistence {σ : Type} (lib : Libs) (s : StorageOverseer σ)
    (w w2 : World σ) (i : String) (M : Values) (evs : List Event)
    (hnd : isDestroyLog evs = false)
    (hok : WriteState lib s w (some ⟨i, M⟩) evs = (none, w2)) :
    (∃ enc : String,
      lib.jsonMarshal (applyEvents ⟨i, M⟩ evs).1.Values = Except.ok enc ∧
      ∃ rest : List StorerCall,
        w2.calls = w.calls ++ StorerCall.Set i enc :: rest ∧
        (∀ c ∈ rest, c = StorerCall.ResetExpiry i)) ∧
    (∀ json : String,
      lib.jsonMarshal (AList.singleton "key" "value") = Except.ok json →
      (WriteState lib s w (some ⟨testID, ∅⟩) [evSet "key" "value"]).2.calls =
        w.calls ++ [StorerCall.Set testID json]) := by
  constructor
  · rw [writeState_not_destroy lib s w (some ⟨i, M⟩) evs hnd] at hok
    simp only [openSession] at hok
    obtain ⟨enc, hm, _, hcalls⟩ := persist_none lib s w w2 _ _ _ hok
    refine ⟨enc, hm, _, hcalls, ?_⟩
    intro c hc
    split_ifs at hc
    · simpa using hc
    · simp at hc
  · intro json hjson
    have hnd2 : isDestroyLog [evSet "key" "value"] = false := by decide
    rw [writeState_not_destroy lib s w (some ⟨testID, ∅⟩) [evSet "key" "value"] hnd2]
    simp only [openSession]
    have hred : reduceForCommit ⟨testID, ∅⟩ false [evSet "key" "value"] =
        (⟨testID, AList.singleton "key" "value"⟩, false) := by
      simp [reduceForCommit, applyEvents, applyEvent, evSet, EventSet, EventRefresh,
        EventDel, EventDelAll]
    rw [hred, persist_calls]
    simp [hjson]

/-- The commit of `TestWriteState`: the record stored under the id of the
existing session is the object holding `key: value`. -/
theorem existing_session_persistence_witness :
    (∃ enc : String,
      demoLibs.jsonMarshal (applyEvents ⟨testID, ∅⟩ [evSet "key" "value"]).1.Values =
        Except.ok enc ∧
      ∃ rest : List StorerCall,
        [StorerCall.Set testID "\x7b\"key\":\"value\"\x7d"] =
          emptyWorld.calls ++ StorerCall.Set testID enc :: rest ∧
        (∀ c ∈ rest, c = StorerCall.ResetExpiry testID)) ∧
    (WriteState demoLibs demoOverseer emptyWorld (some ⟨testID, ∅⟩)
        [evSet "key" "value"]).2.calls =
      emptyWorld.calls ++ [StorerCall.Set testID "\x7b\"key\":\"value\"\x7d"] :=
  ⟨(existing_session_persistence demoLibs demoOverseer emptyWorld
      ⟨[(testID, "\x7b\"key\":\"value\"\x7d")],
        [StorerCall.Set testID "\x7b\"key\":\"value\"\x7d"], []⟩
      testID ∅ [evSet "key" "value"] (by decide) (by rfl)).1,
    (existing_session_persistence demoLibs demoOverseer emptyWorld
      ⟨[(testID, "\x7b\"key\":\"value\"\x7d")],
        [StorerCall.Set testID "\x7b\"key\":\"value\"\x7d"], []⟩
      testID ∅ [evSet "key" "value"] (by decide) (by rfl)).2
        "\x7b\"key\":\"value\"\x7d" (by rfl)⟩

/-! ### The response writer -/

theorem writeClientState_fail {σ : Type} (r : possesionsWriter σ) (e : GoError) (w1 : World σ)
    (h : r.overseer.WriteState r.underlying r.session r.events = (some e, w1)) :
    r.writeClientState =
      (some e, ⟨w1, r.overseer, r.session, r.hasWritten, r.events,
        r.trace ++ [SinkCall.WriteState (some e)]⟩) := by
  simp [possesionsWriter.writeClientState, h]

theorem writeClientState_ok {σ : Type} (r : possesionsWriter σ) (w1 : World σ)
    (h : r.overseer.WriteState r.underlying r.session r.events = (none, w1)) :
    r.writeClientState =
      (none, ⟨w1, r.overseer, r.session, true, r.events,
        r.trace ++ [SinkCall.WriteState none]⟩) := by
  simp [possesionsWriter.writeClientState, h]

theorem write_hasWritten {σ : Type} (fuel : Nat) (r : possesionsWriter σ) (b : List Nat)
    (h : r.hasWritten = true) : r.Write fuel b = (none, r) := by
  induction fuel with
  | zero => rfl
  | succ n ih =>
    rw [possesionsWriter.Write]
    simp [h, ih]

theorem write_after_commit {σ : Type} (fuel : Nat) (r : possesionsWriter σ) (b : List Nat)
    (w1 : World σ) (hfresh : r.hasWritten = false)
    (h : r.overseer.WriteState r.underlying r.session r.events = (none, w1)) :
    r.Write (fuel + 1) b =
      (none, ⟨w1, r.overseer, r.session, true, r.events,
        r.trace ++ [SinkCall.WriteState none]⟩) := by
  rw [possesionsWriter.Write]
  simp only [hfresh, Bool.not_false, if_true, writeClientState_ok r w1 h]
  exact write_hasWritten fuel _ b rfl

theorem write_after_failure {σ : Type} (fuel : Nat) (r : possesionsWriter σ) (b : List Nat)
    (e : GoError) (w1 : World σ) (hfresh : r.hasWritten = false)
    (h : r.overseer.WriteState r.underlying r.session r.events = (some e, w1)) :
    r.Write (fuel + 1) b =
      (some (0, some e), ⟨w1, r.overseer, r.session, r.hasWritten, r.events,
        r.trace ++ [SinkCall.WriteState (some e)]⟩) := by
  rw [possesionsWriter.Write]
  simp only [hfresh, Bool.not_false, if_true, writeClientState_fail r e w1 h]

theorem commitAttempts_append (a b : List SinkCall) :
    commitAttempts (a ++ b) = commitAttempts a ++ commitAttempts b := by
  induction a with
  | nil => rfl
  | cons c rest ih =>
    cases c <;> simp [commitAttempts, ih]

/-- What one call on the response writer does to the commit: nothing, a failed
attempt that leaves `hasWritten` false, or the attempt that succeeds and sets
`hasWritten`. -/
theorem runOp_cases {σ : Type} (fuel : Nat) (r : possesionsWriter σ) (op : SinkOp) :
    ((runOp fuel r op).2.hasWritten = r.hasWritten ∧
      commitAttempts (runOp fuel r op).2.trace = commitAttempts r.trace ∧
      (r.hasWritten = true → (runOp fuel r op).2.underlying = r.underlying)) ∨
    (r.hasWritten = false ∧ (runOp fuel r op).2.hasWritten = false ∧
      ∃ e : GoError, commitAttempts (runOp fuel r op).2.trace =
        commitAttempts r.trace ++ [some e]) ∨
    (r.hasWritten = false ∧ (runOp fuel r op).2.hasWritten = true ∧
      commitAttempts (runOp fuel r op).2.trace = commitAttempts r.trace ++ [none]) := by
  cases hw : r.hasWritten with
  | true =>
    left
    cases op with
    | WriteHeader code =>
      simp [runOp, possesionsWriter.WriteHeader, hw, commitAttempts_append, commitAttempts]
    | Write b =>
      simp [runOp, write_hasWritten fuel r b hw, hw]
  | false =>
    cases hres : r.overseer.WriteState r.underlying r.session r.events with
    | mk res w1 =>
      cases res with
      | some e =>
        cases op with
        | WriteHeader code =>
          right; left
          simp [runOp, possesionsWriter.WriteHeader, hw, writeClientState_fail r e w1 hres,
            commitAttempts_append, commitAttempts]
        | Write b =>
          cases fuel with
          | zero =>
            left
            simp [runOp, possesionsWriter.Write, hw]
          | succ n =>
            right; left
            simp [runOp, write_after_failure n r b e w1 hw hres, hw,
              commitAttempts_append, commitAttempts]
      | none =>
        cases op with
        | WriteHeader code =>
          right; right
          simp [runOp, possesionsWriter.WriteHeader, hw, writeClientState_ok r w1 hres,
            commitAttempts_append, commitAttempts]
        | Write b =>
          cases fuel with
          | zero =>
            left
            simp [runOp, possesionsWriter.Write, hw]
          | succ n =>
            right; right
            simp [runOp, write_after_commit n r b w1 hw hres,
              commitAttempts_append, commitAttempts]

theorem runOps_committed {σ : Type} (fuel : Nat) (ops : List SinkOp) :
    ∀ r : possesionsWriter σ, r.hasWritten = true →
      (runOps fuel r ops).hasWritten = true ∧
      commitAttempts (runOps fuel r ops).trace = commitAttempts r.trace ∧
      (runOps fuel r ops).underlying = r.underlying := by
  induction ops with
  | nil => intro r h; exact ⟨h, rfl, rfl⟩
  | cons op rest ih =>
    intro r h
    have hstep : (runOp fuel r op).2.hasWritten = true ∧
        commitAttempts (runOp fuel r op).2.trace = commitAttempts r.trace ∧
        (runOp fuel r op).2.underlying = r.underlying := by
      rcases runOp_cases fuel r op with h1 | h1 | h1
      · exact ⟨h1.1.trans h, h1.2.1, h1.2.2 h⟩
      · rw [h] at h1; exact absurd h1.1 (by simp)
      · rw [h] at h1; exact absurd h1.1 (by simp)
    rw [runOps]
    split_ifs
    · obtain ⟨h2, h3, h4⟩ := ih _ hstep.1
      exact ⟨h2, h3.trans hstep.2.1, h4.trans hstep.2.2⟩
    · exact hstep

/-- C12: commit guard. A `WriteHeader` or `Write` call whose `WriteState`
returns no error sets `hasWritten`; and from a writer with `hasWritten` set,
every sequence of `WriteHeader` and `Write` calls keeps `hasWritten` set, adds
no `WriteState` call to the trace and leaves the world behind the overseer
(the store and the calls made on the `Storer`) as it was. -/
theorem commit_guard {σ : Type} (r : possesionsWriter σ) :
    (∀ (w1 : World σ) (code : Int) (fuel : Nat) (b : List Nat),
      r.hasWritten = false →
      r.overseer.WriteState r.underlying r.session r.events = (none, w1) →
      (r.WriteHeader code).2.hasWritten = true ∧
      (r.Write (fuel + 1) b).2.hasWritten = true) ∧
    (r.hasWritten = true →
      ∀ (fuel : Nat) (ops : List SinkOp),
        (runOps fuel r ops).hasWritten = true ∧
        commitAttempts (runOps fuel r ops).trace = commitAttempts r.trace ∧
        (runOps fuel r ops).underlying = r.underlying) := by
  constructor
  · intro w1 code fuel b hfresh hok
    constructor
    · simp [possesionsWriter.WriteHeader, hfresh, writeClientState_ok r w1 hok]
    · rw [write_after_commit fuel r b w1 hfresh hok]
  · intro h fuel ops
    exact runOps_committed fuel ops r h

/-- The writer of the examples: its first `WriteHeader` commits and sets
`hasWritten`, and three more calls on the committed writer add no `WriteState`
call. -/
theorem commit_guard_witness :
    ((demoSink.WriteHeader 200).2.hasWritten = true ∧
      (demoSink.Write (3 + 1) [104, 105]).2.hasWritten = true) ∧
    ((runOps 3 (demoSink.WriteHeader 200).2
        [SinkOp.Write [104, 105], SinkOp.WriteHeader 200]).hasWritten = true ∧
      commitAttempts (runOps 3 (demoSink.WriteHeader 200).2
        [SinkOp.Write [104, 105], SinkOp.WriteHeader 200]).trace =
          commitAttempts (demoSink.WriteHeader 200).2.trace ∧
      (runOps 3 (demoSink.WriteHeader 200).2
        [SinkOp.Write [104, 105], SinkOp.WriteHeader 200]).underlying =
          (demoSink.WriteHeader 200).2.underlying) :=
  ⟨(commit_guard demoSink).1
      ⟨[("a668b3bb-0cf1-4627-8cd4-7f62d09ebad6", "\x7b\x7d")],
        [StorerCall.Set "a668b3bb-0cf1-4627-8cd4-7f62d09ebad6" "\x7b\x7d"],
        [⟨"id", "a668b3bb-0cf1-4627-8cd4-7f62d09ebad6", 2, true, true⟩]⟩
      200 3 [104, 105] rfl (by rfl),
    (commit_guard (demoSink.WriteHeader 200).2).2 (by rfl) 3
      [SinkOp.Write [104, 105], SinkOp.WriteHeader 200]⟩

/-- C13, as stated, fails: over a store whose `Set` fails, two `Write` calls on
one writer each return the error of the commit, and `WriteState` has been
invoked twice. -/
theorem failed_commit_runs_again :
    (failingSink.Write 3 [104, 105]).1 = some (0, some storeFailure) ∧
    (runOps 3 failingSink [SinkOp.Write [104, 105], SinkOp.Write [104, 105]]).trace =
      [SinkCall.WriteState (some storeFailure), SinkCall.WriteState (some storeFailure)] ∧
    (commitAttempts
      (runOps 3 failingSink [SinkOp.Write [104, 105], SinkOp.Write [104, 105]]).trace).length
        = 2 := by
  refine ⟨by rfl, by rfl, by rfl⟩

theorem runOps_attempts {σ : Type} (fuel : Nat) (ops : List SinkOp) :
    ∀ r : possesionsWriter σ,
      (∀ x ∈ commitAttempts r.trace, x ≠ none) →
      r.hasWritten = false →
      ∃ fails : List (Option GoError),
        (∀ x ∈ fails, x ≠ none) ∧
        ((commitAttempts (runOps fuel r ops).trace = fails ∧
            (runOps fuel r ops).hasWritten = false) ∨
          (commitAttempts (runOps fuel r ops).trace = fails ++ [none] ∧
            (runOps fuel r ops).hasWritten = true)) := by
  induction ops with
  | nil =>
    intro r hall hfresh
    exact ⟨_, hall, Or.inl ⟨rfl, hfresh⟩⟩
  | cons op rest ih =>
    intro r hall hfresh
    have hstep : ((runOp fuel r op).2.hasWritten = false ∧
          ∀ x ∈ commitAttempts (runOp fuel r op).2.trace, x ≠ none) ∨
        ((runOp fuel r op).2.hasWritten = true ∧
          commitAttempts (runOp fuel r op).2.trace = commitAttempts r.trace ++ [none]) := by
      rcases runOp_cases fuel r op with h1 | h1 | h1
      · left
        refine ⟨h1.1.trans hfresh, ?_⟩
        rw [h1.2.1]; exact hall
      · left
        obtain ⟨_, h2, e, h3⟩ := h1
        refine ⟨h2, ?_⟩
        rw [h3]
        intro x hx
        rcases List.mem_append.mp hx with hx | hx
        · exact hall x hx
        · simp at hx; simp [hx]
      · right
        exact ⟨h1.2.1, h1.2.2⟩
    rw [runOps]
    split_ifs
    · rcases hstep with h1 | h1
      · exact ih _ h1.2 h1.1
      · obtain ⟨h2, h3, _⟩ := runOps_committed fuel rest _ h1.1
        exact ⟨_, hall, Or.inr ⟨h3.trans h1.2, h2⟩⟩
    · rcases hstep with h1 | h1
      · exact ⟨_, h1.2, Or.inl ⟨rfl, h1.1⟩⟩
      · exact ⟨_, hall, Or.inr ⟨h1.2, h1.1⟩⟩

/-- C13, amended: on a fresh writer (whatever its world, overseer, session and
events), after every sequence of `WriteHeader` and `Write` calls the
`WriteState` calls made are attempts that returned an error, followed by at
most one call that returned no error; `hasWritten` is set exactly when that
last call has been made. So `WriteState` returns no error at most once and is
never invoked after that; after an attempt that returned an error the next
call on the writer invokes it again. -/
theorem commit_succeeds_at_most_once {σ : Type} (fuel : Nat) (w : World σ)
    (overseer : Overseer σ) (sess : Option session) (evs : List Event)
    (ops : List SinkOp) :
    (∃ fails : List (Option GoError),
      (∀ x ∈ fails, x ≠ none) ∧
      ((commitAttempts (runOps fuel ⟨w, overseer, sess, false, evs, []⟩ ops).trace = fails ∧
          (runOps fuel ⟨w, overseer, sess, false, evs, []⟩ ops).hasWritten = false) ∨
        (commitAttempts (runOps fuel ⟨w, overseer, sess, false, evs, []⟩ ops).trace =
            fails ++ [none] ∧
          (runOps fuel ⟨w, overseer, sess, false, evs, []⟩ ops).hasWritten = true))) ∧
    (∀ (r : possesionsWriter σ) (e : GoError) (w1 : World σ) (code : Int) (b : List Nat),
      r.hasWritten = false →
      r.overseer.WriteState r.underlying r.session r.events = (some e, w1) →
      (r.WriteHeader code).2.hasWritten = false ∧
      (r.Write (fuel + 1) b).2.hasWritten = false ∧
      commitAttempts (r.Write (fuel + 1) b).2.trace = commitAttempts r.trace ++ [some e] ∧
      commitAttempts (r.WriteHeader code).2.trace = commitAttempts r.trace ++ [some e]) := by
  constructor
  · exact runOps_attempts fuel ops _ (by simp [commitAttempts]) rfl
  · intro r e w1 code b hfresh hfail
    rw [write_after_failure fuel r b e w1 hfresh hfail]
    simp [possesionsWriter.WriteHeader, hfresh, writeClientState_fail r e w1 hfail,
      commitAttempts_append, commitAttempts]

/-- Over the failing store a `Write` leaves `hasWritten` false and adds one
failed attempt. -/
theorem commit_succeeds_at_most_once_witness :
    (failingSink.WriteHeader 200).2.hasWritten = false ∧
    (failingSink.Write (2 + 1) [104]).2.hasWritten = false ∧
    commitAttempts (failingSink.Write (2 + 1) [104]).2.trace =
      commitAttempts failingSink.trace ++ [some storeFailure] ∧
    commitAttempts (failingSink.WriteHeader 200).2.trace =
      commitAttempts failingSink.trace ++ [some storeFailure] :=
  (commit_succeeds_at_most_once 2 emptyWorld failingSink.overseer none [] []).2
    failingSink storeFailure
    ⟨[], [StorerCall.Set "a668b3bb-0cf1-4627-8cd4-7f62d09ebad6" "\x7b\x7d"], []⟩
    200 [104] rfl (by rfl)

/-- C14 on the code: a `Write` on a writer whose `hasWritten` is set does not
return within any number of nested calls and leaves the writer as it was, so
nothing is forwarded to the wrapped response writer; and the first `Write` on
the writer of the examples commits, does not return either, and its trace
holds the `WriteState` call alone. -/
theorem write_never_forwards {σ : Type} (fuel : Nat) (w : World σ) (overseer : Overseer σ)
    (sess : Option session) (evs : List Event) (trace : List SinkCall) (b : List Nat) :
    possesionsWriter.Write fuel ⟨w, overseer, sess, true, evs, trace⟩ b =
      (none, ⟨w, overseer, sess, true, evs, trace⟩) ∧
    (demoSink.Write (fuel + 1) b).1 = none ∧
    (demoSink.Write (fuel + 1) b).2.trace = [SinkCall.WriteState none] := by
  refine ⟨write_hasWritten fuel _ b rfl, ?_, ?_⟩
  · rw [write_after_commit fuel demoSink b
      ⟨[("a668b3bb-0cf1-4627-8cd4-7f62d09ebad6", "\x7b\x7d")],
        [StorerCall.Set "a668b3bb-0cf1-4627-8cd4-7f62d09ebad6" "\x7b\x7d"],
        [⟨"id", "a668b3bb-0cf1-4627-8cd4-7f62d09ebad6", 2, true, true⟩]⟩ rfl (by rfl)]
  · rw [write_after_commit fuel demoSink b
      ⟨[("a668b3bb-0cf1-4627-8cd4-7f62d09ebad6", "\x7b\x7d")],
        [StorerCall.Set "a668b3bb-0cf1-4627-8cd4-7f62d09ebad6" "\x7b\x7d"],
        [⟨"id", "a668b3bb-0cf1-4627-8cd4-7f62d09ebad6", 2, true, true⟩]⟩ rfl (by rfl)]
    rfl

/-- C15: a failed commit is never silently swallowed. When `WriteState`
returns an error `e` on the triggering call, `WriteHeader` panics with `e` and
`Write` returns `(0, e)`; in both cases the only call the writer has made is
the failed `WriteState`, so the wrapped response writer has received neither
the header nor a byte. -/
theorem failed_commit_surfaces {σ : Type} (r : possesionsWriter σ) (e : GoError)
    (w1 : World σ) (hfresh : r.hasWritten = false)
    (hfail : r.overseer.WriteState r.underlying r.session r.events = (some e, w1)) :
    (∀ code : Int,
      (r.WriteHeader code).1 = some e ∧
      (r.WriteHeader code).2.trace = r.trace ++ [SinkCall.WriteState (some e)]) ∧
    (∀ (fuel : Nat) (b : List Nat),
      (r.Write (fuel + 1) b).1 = some (0, some e) ∧
      (r.Write (fuel + 1) b).2.trace = r.trace ++ [SinkCall.WriteState (some e)]) := by
  constructor
  · intro code
    simp [possesionsWriter.WriteHeader, hfresh, writeClientState_fail r e w1 hfail]
  · intro fuel b
    rw [write_after_failure fuel r b e w1 hfresh hfail]
    exact ⟨rfl, rfl⟩

/-- Over the failing store `WriteHeader` panics with the error of the commit
and `Write` returns it with `0`. -/
theorem failed_commit_surfaces_witness :
    ((failingSink.WriteHeader 200).1 = some storeFailure ∧
      (failingSink.WriteHeader 200).2.trace =
        failingSink.trace ++ [SinkCall.WriteState (some storeFailure)]) ∧
    ((failingSink.Write (0 + 1) [104]).1 = some (0, some storeFailure) ∧
      (failingSink.Write (0 + 1) [104]).2.trace =
        failingSink.trace ++ [SinkCall.WriteState (some storeFailure)]) :=
  ⟨(failed_commit_surfaces failingSink storeFailure
      ⟨[], [StorerCall.Set "a668b3bb-0cf1-4627-8cd4-7f62d09ebad6" "\x7b\x7d"], []⟩
      rfl (by rfl)).1 200,
    (failed_commit_surfaces failingSink storeFailure
      ⟨[], [StorerCall.Set "a668b3bb-0cf1-4627-8cd4-7f62d09ebad6" "\x7b\x7d"], []⟩
      rfl (by rfl)).2 0 [104]⟩

/-! ### The session facade -/

theorem getResponseWriter_assign {σ : Type} (pw2 : possesionsWriter σ) :
    ∀ (w : ResponseWriter σ) (pw : possesionsWriter σ),
      getResponseWriter w = some pw →
      getResponseWriter (ResponseWriter.assign pw2 w) = some pw2 := by
  intro w
  induction w with
  | sink r => intro pw _; rfl
  | wrapper u ih =>
    intro pw h
    exact ih pw h
  | plain w0 =>
    intro pw h
    simp [getResponseWriter] at h

theorem appendEvent_spec {σ : Type} (w : ResponseWriter σ) (pw : possesionsWriter σ)
    (ev : Event) (h : getResponseWriter w = some pw) :
    ∃ w2 : ResponseWriter σ, appendEvent w ev = some w2 ∧
      getResponseWriter w2 =
        some ⟨pw.underlying, pw.overseer, pw.session, pw.hasWritten, pw.events ++ [ev],
          pw.trace⟩ := by
  refine ⟨ResponseWriter.assign ⟨pw.underlying, pw.overseer, pw.session, pw.hasWritten,
    pw.events ++ [ev], pw.trace⟩ w, ?_, getResponseWriter_assign _ w pw h⟩
  simp only [appendEvent, h]

/-- C16: the facade mutators are append-only. On a response writer under which
`getResponseWriter` finds the writer `pw`, each of `Set`, `Del`, `DelAll` and
`Refresh` returns, and afterwards the writer found is `pw` with exactly one
more event at the end of its log, respectively `Set(k, v)`, `Del(k)`,
`DelAll(wl)` and `Refresh`; `SetObj` appends `Set(k, json)` for the encoding
`json` of the object. The wrapped writer with its store, the session, the
flag and the trace of `pw` are as they were. -/
theorem facade_mutators_append {σ α : Type} (w : ResponseWriter σ) (pw : possesionsWriter σ)
    (k v : String) (wl : List String) (jsonMarshalObj : α → Except GoError String)
    (obj : α) (json : String)
    (h : getResponseWriter w = some pw) (hjson : jsonMarshalObj obj = Except.ok json) :
    (∃ w2 : ResponseWriter σ, Set w k v = some w2 ∧
      getResponseWriter w2 =
        some ⟨pw.underlying, pw.overseer, pw.session, pw.hasWritten,
          pw.events ++ [⟨EventSet, k, v, []⟩], pw.trace⟩) ∧
    (∃ w2 : ResponseWriter σ, Del w k = some w2 ∧
      getResponseWriter w2 =
        some ⟨pw.underlying, pw.overseer, pw.session, pw.hasWritten,
          pw.events ++ [⟨EventDel, k, "", []⟩], pw.trace⟩) ∧
    (∃ w2 : ResponseWriter σ, DelAll w wl = some w2 ∧
      getResponseWriter w2 =
        some ⟨pw.underlying, pw.overseer, pw.session, pw.hasWritten,
          pw.events ++ [⟨EventDelAll, "", "", wl⟩], pw.trace⟩) ∧
    (∃ w2 : ResponseWriter σ, Refresh w = some w2 ∧
      getResponseWriter w2 =
        some ⟨pw.underlying, pw.overseer, pw.session, pw.hasWritten,
          pw.events ++ [⟨EventRefresh, "", "", []⟩], pw.trace⟩) ∧
    (∃ w2 : ResponseWriter σ, SetObj jsonMarshalObj w k obj = some (none, w2) ∧
      getResponseWriter w2 =
        some ⟨pw.underlying, pw.overseer, pw.session, pw.hasWritten,
          pw.events ++ [⟨EventSet, k, json, []⟩], pw.trace⟩) := by
  refine ⟨appendEvent_spec w pw _ h, appendEvent_spec w pw _ h, appendEvent_spec w pw _ h,
    appendEvent_spec w pw _ h, ?_⟩
  obtain ⟨w2, h1, h2⟩ := appendEvent_spec w pw ⟨EventSet, k, json, []⟩ h
  refine ⟨w2, ?_, h2⟩
  simp only [SetObj, hjson, set, h1]

/-- The first, fifth, sixth and seventh calls of the facade test on a fresh
writer behind one wrapper. -/
theorem facade_mutators_append_witness :
    (∃ w2 : ResponseWriter (List (String × String)),
      Set (ResponseWriter.wrapper (ResponseWriter.sink demoSink)) "key1" "value1" = some w2 ∧
      getResponseWriter w2 =
        some ⟨demoSink.underlying, demoSink.overseer, demoSink.session, demoSink.hasWritten,
          demoSink.events ++ [⟨EventSet, "key1", "value1", []⟩], demoSink.trace⟩) ∧
    (∃ w2 : ResponseWriter (List (String × String)),
      Del (ResponseWriter.wrapper (ResponseWriter.sink demoSink)) "key1" = some w2 ∧
      getResponseWriter w2 =
        some ⟨demoSink.underlying, demoSink.overseer, demoSink.session, demoSink.hasWritten,
          demoSink.events ++ [⟨EventDel, "key1", "", []⟩], demoSink.trace⟩) :=
  ⟨(facade_mutators_append (ResponseWriter.wrapper (ResponseWriter.sink demoSink)) demoSink
      "key1" "value1" ["key6"] (fun o : String => Except.ok ("\"" ++ o ++ "\"")) "value2"
      "\"value2\"" rfl rfl).1,
    (facade_mutators_append (ResponseWriter.wrapper (ResponseWriter.sink demoSink)) demoSink
      "key1" "value1" ["key6"] (fun o : String => Except.ok ("\"" ++ o ++ "\"")) "value2"
      "\"value2\"" rfl rfl).2.1⟩

theorem ne_flash_prefix (k : String) : k ≠ "flash_" ++ k := by
  intro h
  have hl := congrArg String.length h
  rw [String.length_append] at hl
  have h6 : "flash_".length = 6 := by decide
  omega

/-- C17 on the code: `AddFlash(w, k, v)` appends the event `Set(k, v)`, whose
key is `k` itself and not `"flash_" + k`, and `AddFlashObj` does the same with
the encoding of the object; `AddFlash(w, "key3", "value3")` on a fresh writer
leaves the log `[Set("key3", "value3")]`, which is not the log
`[Set("flash_key3", "value3")]` the facade test expects. -/
theorem addFlash_not_namespaced {σ α : Type} (pw : possesionsWriter σ) (k v : String)
    (jsonMarshalObj : α → Except GoError String) (obj : α) :
    AddFlash (ResponseWriter.sink pw) k v =
      some (ResponseWriter.sink ⟨pw.underlying, pw.overseer, pw.session, pw.hasWritten,
        pw.events ++ [⟨EventSet, k, v, []⟩], pw.trace⟩) ∧
    (∀ json : String, jsonMarshalObj obj = Except.ok json →
      AddFlashObj jsonMarshalObj (ResponseWriter.sink pw) k obj =
        some (none, ResponseWriter.sink ⟨pw.underlying, pw.overseer, pw.session,
          pw.hasWritten, pw.events ++ [⟨EventSet, k, json, []⟩], pw.trace⟩)) ∧
    k ≠ "flash_" ++ k ∧
    (AddFlash (ResponseWriter.sink demoSink) "key3" "value3").map
        (fun w2 => (getResponseWriter w2).map (fun r => r.events)) =
      some (some [⟨EventSet, "key3", "value3", []⟩]) ∧
    ([⟨EventSet, "key3", "value3", []⟩] : List Event) ≠
      [⟨EventSet, "flash_key3", "value3", []⟩] := by
  refine ⟨rfl, ?_, ne_flash_prefix k, by rfl, by decide⟩
  intro json hjson
  simp only [AddFlashObj, SetObj, hjson]
  rfl

theorem lookup_singleton_flash (k v : String) :
    (AList.singleton ("flash_" ++ k) v : Values).lookup k = none := by
  rw [AList.lookup_eq_none, AList.mem_keys]
  simp [AList.keys_singleton, ne_flash_prefix k]

/-- C18 on the code: with a session holding `v` under `"flash_" + k` alone,
`GetFlash(w, ctx, k)` reads the key `k` itself, returns not-found and appends
no event, and `GetFlashObj` returns `errNoMapKey`; with the session of the
facade test, `GetFlash(w, ctx, "key3")` returns `("", false)` and leaves the
log empty, where the test expects `value3` and the event `Del("flash_key3")`. -/
theorem getFlash_not_namespaced {σ β : Type} (w : ResponseWriter σ) (id k v : String)
    (jsonUnmarshalObj : String → Except GoError β) :
    GetFlash w (some ⟨id, AList.singleton ("flash_" ++ k) v⟩) k = some (("", false), w) ∧
    GetFlashObj jsonUnmarshalObj w (some ⟨id, AList.singleton ("flash_" ++ k) v⟩) k =
      some (Except.error GoError.errNoMapKey, w) ∧
    testSession.Values.lookup "flash_key3" = some "value3" ∧
    (GetFlash (ResponseWriter.sink demoSink) (some testSession) "key3").map
        (fun x => (x.1, (getResponseWriter x.2).map (fun r => r.events))) =
      some (("", false), some []) := by
  have hget : Get (some ⟨id, AList.singleton ("flash_" ++ k) v⟩) k = ("", false) := by
    simp [Get, get, session.Get, lookup_singleton_flash]
  refine ⟨?_, ?_, by rfl, by rfl⟩
  · simp only [GetFlash, hget]
  · simp only [GetFlashObj, hget]

/-! ### Flash values across requests -/

theorem lookup_after_set_last (sessionObj : session) (evs : List Event) (k v : String)
    (keys : List String) :
    (applyEvents sessionObj (evs ++ [⟨EventSet, k, v, keys⟩])).1.Values.lookup k = some v := by
  rw [applyEvents_append_values, applyEvents_singleton]
  simp [applyEvent]

theorem lookup_after_del_last (sessionObj : session) (evs : List Event) (k val : String)
    (keys : List String) :
    (applyEvents sessionObj (evs ++ [⟨EventDel, k, val, keys⟩])).1.Values.lookup k = none := by
  rw [applyEvents_append_values, applyEvents_singleton]
  simp [applyEvent, EventSet, EventDel]

/-! ### Reading the session -/

/-- C20: `ReadState` returns what was stored. When the session cookie of the
request has the value `i`, `validKey` accepts `i`, the `Storer` holds the
document `enc` under `i` and `enc` is a JSON encoding of the map `M` (it
decodes to `M`), `ReadState` returns no error and the session with id `i` and
values `M`, after one `Storer.Get(i)`; on that session `Get(k)` is
`(M[k], true)` for every key `k` of `M` and not-found for every other key. -/
theorem readState_returns_stored {σ : Type}
    (jsonUnmarshal : String → Except GoError Values) (s : StorageOverseer σ) (w : World σ)
    (r : Request) (i enc : String) (M : Values)
    (hcookie : r.cookies.lookup s.options.Name = some i)
    (hvalid : validKey (goBytes i) = true)
    (hget : s.Storer.Get w.store i = Except.ok enc)
    (hdec : jsonUnmarshal enc = Except.ok M) :
    (ReadState jsonUnmarshal s w r).1 = Except.ok (some ⟨i, M⟩) ∧
    (ReadState jsonUnmarshal s w r).2.calls = w.calls ++ [StorerCall.Get i] ∧
    (∀ k v : String, M.lookup k = some v → session.Get ⟨i, M⟩ k = (v, true)) ∧
    (∀ k : String, k ∉ M → (session.Get ⟨i, M⟩ k).2 = false) := by
  have hrs : ReadState jsonUnmarshal s w r =
      (Except.ok (some ⟨i, M⟩), ⟨w.store, w.calls ++ [StorerCall.Get i], w.header⟩) := by
    simp [ReadState, CookieOptions.getCookieValue, hcookie, hvalid, storerGet, hget, hdec]
  rw [hrs]
  refine ⟨rfl, rfl, ?_, ?_⟩
  · intro k v hk
    simp [session.Get, hk]
  · intro k hk
    have : M.lookup k = none := AList.lookup_eq_none.mpr hk
    simp [session.Get, this]

/-- The request of `TestReadState`: the stored object holding `key: value` is
returned under the id of the cookie and `Get("key")` is `("value", true)`. -/
theorem readState_returns_stored_witness :
    (ReadState demoUnmarshal demoOverseer
        ⟨[(testID, "\x7b\"key\":\"value\"\x7d")], [], []⟩ ⟨[("id", testID)]⟩).1 =
      Except.ok (some ⟨testID, AList.singleton "key" "value"⟩) ∧
    session.Get ⟨testID, AList.singleton "key" "value"⟩ "key" = ("value", true) ∧
    (session.Get ⟨testID, AList.singleton "key" "value"⟩ "other").2 = false :=
  ⟨(readState_returns_stored demoUnmarshal demoOverseer
      ⟨[(testID, "\x7b\"key\":\"value\"\x7d")], [], []⟩ ⟨[("id", testID)]⟩ testID
      "\x7b\"key\":\"value\"\x7d" (AList.singleton "key" "value")
      (by rfl) (by decide) (by rfl) (by rfl)).1,
    (readState_returns_stored demoUnmarshal demoOverseer
      ⟨[(testID, "\x7b\"key\":\"value\"\x7d")], [], []⟩ ⟨[("id", testID)]⟩ testID
      "\x7b\"key\":\"value\"\x7d" (AList.singleton "key" "value")
      (by rfl) (by decide) (by rfl) (by rfl)).2.2.1 "key" "value" (by rfl),
    (readState_returns_stored demoUnmarshal demoOverseer
      ⟨[(testID, "\x7b\"key\":\"value\"\x7d")], [], []⟩ ⟨[("id", testID)]⟩ testID
      "\x7b\"key\":\"value\"\x7d" (AList.singleton "key" "value")
      (by rfl) (by decide) (by rfl) (by rfl)).2.2.2 "other" (by decide)⟩

/-! ### No-session conditions -/

theorem readState_absent {σ : Type} (jsonUnmarshal : String → Except GoError Values)
    (s : StorageOverseer σ) (w : World σ) (r : Request)
    (h : r.cookies.lookup s.options.Name = none) :
    ReadState jsonUnmarshal s w r = (Except.ok none, w) := by
  simp [ReadState, CookieOptions.getCookieValue, h, IsNoSessionError, isNoSessionInterface]

theorem readState_malformed {σ : Type} (jsonUnmarshal : String → Except GoError Values)
    (s : StorageOverseer σ) (w : World σ) (r : Request) (id : String)
    (h : r.cookies.lookup s.options.Name = some id)
    (hbad : validKey (goBytes id) = false) :
    ReadState jsonUnmarshal s w r = (Except.error GoError.errNoSession, w) := by
  simp [ReadState, CookieOptions.getCookieValue, h, hbad]

theorem readState_missing {σ : Type} (jsonUnmarshal : String → Except GoError Values)
    (s : StorageOverseer σ) (w : World σ) (r : Request) (id : String) (err : GoError)
    (h : r.cookies.lookup s.options.Name = some id)
    (hvalid : validKey (goBytes id) = true)
    (hget : s.Storer.Get w.store id = Except.error err) :
    ReadState jsonUnmarshal s w r =
      (Except.error err, ⟨w.store, w.calls ++ [StorerCall.Get id], w.header⟩) := by
  simp [ReadState, CookieOptions.getCookieValue, h, hvalid, storerGet, hget]

/-- C21, as stated, fails: for the cookie value `garbage`, which `validKey`
rejects, `ReadState` returns the error `errNoSession`, where for a request
without a cookie it returns no session and no error. -/
theorem malformed_cookie_is_an_error :
    validKey (goBytes "garbage") = false ∧
    (ReadState demoUnmarshal demoOverseer emptyWorld ⟨[("id", "garbage")]⟩).1 =
      Except.error GoError.errNoSession ∧
    (ReadState demoUnmarshal demoOverseer emptyWorld ⟨[]⟩).1 = Except.ok none ∧
    (ReadState demoUnmarshal demoOverseer emptyWorld ⟨[("id", "garbage")]⟩).1 ≠
      (ReadState demoUnmarshal demoOverseer emptyWorld ⟨[]⟩).1 := by
  have h1 : ReadState demoUnmarshal demoOverseer emptyWorld ⟨[("id", "garbage")]⟩ =
      (Except.error GoError.errNoSession, emptyWorld) :=
    readState_malformed demoUnmarshal demoOverseer emptyWorld _ "garbage" (by rfl) (by decide)
  have h2 : ReadState demoUnmarshal demoOverseer emptyWorld ⟨[]⟩ = (Except.ok none, emptyWorld) :=
    readState_absent demoUnmarshal demoOverseer emptyWorld _ (by rfl)
  refine ⟨by decide, by rw [h1], by rw [h2], ?_⟩
  rw [h1, h2]
  intro h
  cases h

/-- C21, amended: for every cookie value rejected by `validKey`, `ReadState`
makes no call on the `Storer` and signals the no-session condition by
returning no session together with the error `errNoSession`, which
`IsNoSessionError` recognises; for an absent cookie it returns no session and
no error, again without a call on the `Storer`. -/
theorem malformed_cookie_signals_no_session {σ : Type}
    (jsonUnmarshal : String → Except GoError Values) (s : StorageOverseer σ) (w : World σ)
    (r : Request) (id : String)
    (hcookie : r.cookies.lookup s.options.Name = some id)
    (hbad : validKey (goBytes id) = false) :
    (ReadState jsonUnmarshal s w r).1 = Except.error GoError.errNoSession ∧
    IsNoSessionError GoError.errNoSession = true ∧
    (ReadState jsonUnmarshal s w r).2.calls = w.calls ∧
    (ReadState jsonUnmarshal s w r).2.store = w.store ∧
    (∀ r0 : Request, r0.cookies.lookup s.options.Name = none →
      (ReadState jsonUnmarshal s w r0).1 = Except.ok none ∧
      (ReadState jsonUnmarshal s w r0).2.calls = w.calls) := by
  rw [readState_malformed jsonUnmarshal s w r id hcookie hbad]
  refine ⟨rfl, by rfl, rfl, rfl, ?_⟩
  intro r0 h0
  rw [readState_absent jsonUnmarshal s w r0 h0]
  exact ⟨rfl, rfl⟩

/-- The cookie value `garbage` on the overseer of the examples. -/
theorem malformed_cookie_signals_no_session_witness :
    (ReadState demoUnmarshal demoOverseer emptyWorld ⟨[("id", "garbage")]⟩).1 =
      Except.error GoError.errNoSession ∧
    (ReadState demoUnmarshal demoOverseer emptyWorld ⟨[("id", "garbage")]⟩).2.calls =
      emptyWorld.calls :=
  ⟨(malformed_cookie_signals_no_session demoUnmarshal demoOverseer emptyWorld
      ⟨[("id", "garbage")]⟩ "garbage" (by rfl) (by decide)).1,
    (malformed_cookie_signals_no_session demoUnmarshal demoOverseer emptyWorld
      ⟨[("id", "garbage")]⟩ "garbage" (by rfl) (by decide)).2.2.1⟩

/-- C22 on the code: `oversight.ServeHTTP` over a `StorageOverseer` panics
with the wrapped `errNoSession`, without invoking the wrapped handler, for a
request whose session cookie is rejected by `validKey` and for a request whose
cookie names an identifier for which `Storer.Get` returns `errNoSession`; for
a request without a session cookie it invokes the wrapped handler with no
session attached. -/
theorem serveHTTP_panics_on_no_session {σ α : Type} (lib : Libs)
    (jsonUnmarshal : String → Except GoError Values) (s : StorageOverseer σ)
    (handler : ResponseWriter σ → Context → Request → α) (w : World σ) :
    (∀ (r : Request) (id : String),
      r.cookies.lookup s.options.Name = some id → validKey (goBytes id) = false →
      oversight.ServeHTTP ⟨handler, s.toOverseer lib jsonUnmarshal⟩ w r =
        Except.error (GoError.wrap GoError.errNoSession "failed to read session state")) ∧
    (∀ (r : Request) (id : String),
      r.cookies.lookup s.options.Name = some id → validKey (goBytes id) = true →
      s.Storer.Get w.store id = Except.error GoError.errNoSession →
      oversight.ServeHTTP ⟨handler, s.toOverseer lib jsonUnmarshal⟩ w r =
        Except.error (GoError.wrap GoError.errNoSession "failed to read session state")) ∧
    (∀ r : Request, r.cookies.lookup s.options.Name = none →
      oversight.ServeHTTP ⟨handler, s.toOverseer lib jsonUnmarshal⟩ w r =
        Except.ok (handler
          (ResponseWriter.sink (newResponseWriter w (s.toOverseer lib jsonUnmarshal)))
          none r)) := by
  refine ⟨?_, ?_, ?_⟩
  · intro r id h hbad
    simp only [oversight.ServeHTTP, StorageOverseer.toOverseer,
      readState_malformed jsonUnmarshal s w r id h hbad]
  · intro r id h hvalid hget
    simp only [oversight.ServeHTTP, StorageOverseer.toOverseer,
      readState_missing jsonUnmarshal s w r id _ h hvalid hget]
  · intro r h
    simp only [oversight.ServeHTTP, StorageOverseer.toOverseer,
      readState_absent jsonUnmarshal s w r h]

/-- The middleware of the examples: a garbage cookie and a well-formed cookie
without a record both make it panic; without a cookie the handler runs and
finds no session. -/
theorem serveHTTP_panics_on_no_session_witness :
    demoOversight.ServeHTTP emptyWorld ⟨[("id", "garbage")]⟩ =
      Except.error (GoError.wrap GoError.errNoSession "failed to read session state") ∧
    demoOversight.ServeHTTP emptyWorld ⟨[("id", testID)]⟩ =
      Except.error (GoError.wrap GoError.errNoSession "failed to read session state") ∧
    demoOversight.ServeHTTP emptyWorld ⟨[]⟩ = Except.ok false :=
  ⟨(serveHTTP_panics_on_no_session demoLibs demoUnmarshal demoOverseer demoHandler
      emptyWorld).1 ⟨[("id", "garbage")]⟩ "garbage" (by rfl) (by decide),
    (serveHTTP_panics_on_no_session demoLibs demoUnmarshal demoOverseer demoHandler
      emptyWorld).2.1 ⟨[("id", testID)]⟩ testID (by rfl) (by decide) (by rfl),
    (serveHTTP_panics_on_no_session demoLibs demoUnmarshal demoOverseer demoHandler
      emptyWorld).2.2 ⟨[]⟩ (by rfl)⟩

/-! ### Error predicates -/

theorem cause_wrapAll (msgs : List String) :
    ∀ err : GoError, (wrapAll err msgs).Cause = err.Cause := by
  induction msgs with
  | nil => intro err; rfl
  | cons msg rest ih =>
    intro err
    rw [wrapAll, ih]
    rfl

theorem isNoSessionError_iff (e : GoError) :
    IsNoSessionError e = true ↔ e.Cause = GoError.errNoSession := by
  cases e with
  | errNoSession => simp [IsNoSessionError, isNoSessionInterface, GoError.Cause]
  | errNoMapKey => simp [IsNoSessionError, isNoSessionInterface, GoError.Cause]
  | other msg => simp [IsNoSessionError, isNoSessionInterface, GoError.Cause]
  | wrap cause msg =>
    simp only [IsNoSessionError, isNoSessionInterface, Bool.false_eq_true, if_false]
    cases h : (GoError.wrap cause msg).Cause <;> simp [isNoSessionInterface]

theorem isNoMapKeyError_iff (e : GoError) :
    IsNoMapKeyError e = true ↔ e.Cause = GoError.errNoMapKey := by
  cases e with
  | errNoSession => simp [IsNoMapKeyError, isNoMapKeyInterface, GoError.Cause]
  | errNoMapKey => simp [IsNoMapKeyError, isNoMapKeyInterface, GoError.Cause]
  | other msg => simp [IsNoMapKeyError, isNoMapKeyInterface, GoError.Cause]
  | wrap cause msg =>
    simp only [IsNoMapKeyError, isNoMapKeyInterface, Bool.false_eq_true, if_false]
    cases h : (GoError.wrap cause msg).Cause <;> simp [isNoMapKeyInterface]

/-- C23: the error predicates survive wrapping and do not overlap.
`IsNoSessionError(e)` is true exactly when the root cause of `e` is
`errNoSession`: it is true for `errNoSession` under any chain of `errors.Wrap`
layers (none included), and false for `errNoMapKey` and for an ordinary error
under any chain. Symmetrically `IsNoMapKeyError(e)` is true exactly when the
root cause is `errNoMapKey`, and false for `errNoSession` and for an ordinary
error under any chain. No error satisfies both. -/
theorem error_predicates_survive_wrapping (e : GoError) (msgs : List String) (m : String) :
    (IsNoSessionError e = true ↔ e.Cause = GoError.errNoSession) ∧
    (IsNoMapKeyError e = true ↔ e.Cause = GoError.errNoMapKey) ∧
    IsNoSessionError (wrapAll GoError.errNoSession msgs) = true ∧
    IsNoSessionError (wrapAll GoError.errNoMapKey msgs) = false ∧
    IsNoSessionError (wrapAll (GoError.other m) msgs) = false ∧
    IsNoMapKeyError (wrapAll GoError.errNoMapKey msgs) = true ∧
    IsNoMapKeyError (wrapAll GoError.errNoSession msgs) = false ∧
    IsNoMapKeyError (wrapAll (GoError.other m) msgs) = false ∧
    ¬ (IsNoSessionError e = true ∧ IsNoMapKeyError e = true) := by
  refine ⟨isNoSessionError_iff e, isNoMapKeyError_iff e, ?_, ?_, ?_, ?_, ?_, ?_, ?_⟩
  · rw [isNoSessionError_iff, cause_wrapAll]; rfl
  · rw [← Bool.not_eq_true, isNoSessionError_iff, cause_wrapAll]; simp [GoError.Cause]
  · rw [← Bool.not_eq_true, isNoSessionError_iff, cause_wrapAll]; simp [GoError.Cause]
  · rw [isNoMapKeyError_iff, cause_wrapAll]; rfl
  · rw [← Bool.not_eq_true, isNoMapKeyError_iff, cause_wrapAll]; simp [GoError.Cause]
  · rw [← Bool.not_eq_true, isNoMapKeyError_iff, cause_wrapAll]; simp [GoError.Cause]
  · rintro ⟨h1, h2⟩
    rw [isNoSessionError_iff] at h1
    rw [isNoMapKeyError_iff, h1] at h2
    cases h2

/-! ### Time to live of the committed record -/

theorem persist_store {σ : Type} (lib : Libs) (s : StorageOverseer σ) (w w2 : World σ)
    (sessionObj : session) (isNew doRefresh : Bool)
    (hok : persist lib s w sessionObj isNew doRefresh = (none, w2)) :
    ∃ enc : String,
      (s.Storer.Set w.store sessionObj.ID enc).1 = none ∧
      (doRefresh = false → w2.store = (s.Storer.Set w.store sessionObj.ID enc).2) ∧
      (doRefresh = true →
        (s.Storer.ResetExpiry (s.Storer.Set w.store sessionObj.ID enc).2 sessionObj.ID).1
          = none ∧
        w2.store =
          (s.Storer.ResetExpiry (s.Storer.Set w.store sessionObj.ID enc).2
            sessionObj.ID).2) := by
  unfold persist at hok
  cases hm : lib.jsonMarshal sessionObj.Values with
  | error err => simp [hm] at hok
  | ok enc =>
    cases hs : (s.Storer.Set w.store sessionObj.ID enc).1 with
    | some err => simp [hm, storerSet, hs] at hok
    | none =>
      refine ⟨enc, hs, ?_, ?_⟩
      · intro hdr
        subst hdr
        cases isNew <;>
          simp [hm, storerSet, hs, httpSetCookie] at hok <;>
          rw [← hok]
      · intro hdr
        subst hdr
        cases hr : (s.Storer.ResetExpiry (s.Storer.Set w.store sessionObj.ID enc).2
            sessionObj.ID).1 with
        | some err => simp [hm, storerSet, storerResetExpiry, hs, hr] at hok
        | none =>
          refine ⟨rfl, ?_⟩
          simp [hm, storerSet, storerResetExpiry, hs, hr, httpSetCookie] at hok
          rw [← hok]

/-- C24: TTL invariant of commit. Over a `Storer` whose `Set`, when it returns
no error, leaves the key with a time to live of max-age, and whose
`ResetExpiry`, when it returns no error on a key that has a record, does the
same, every `WriteState` that returns no error and is not the destroy
short-circuit leaves the record under the session id (the id of the existing
session, or the identifier minted for a new one) with a time to live of
max-age, for every session and every log. -/
theorem commit_ttl_invariant {σ : Type} (lib : Libs) (s : StorageOverseer σ)
    (ttl : σ → String → Option Nat) (maxAge : Nat) (w w2 : World σ)
    (sess : Option session) (evs : List Event)
    (hSet : ∀ (st : σ) (key value : String), (s.Storer.Set st key value).1 = none →
      ttl (s.Storer.Set st key value).2 key = some maxAge)
    (hReset : ∀ (st : σ) (key : String), ttl st key ≠ none →
      (s.Storer.ResetExpiry st key).1 = none →
      ttl (s.Storer.ResetExpiry st key).2 key = some maxAge)
    (hnd : isDestroyLog evs = false)
    (hok : WriteState lib s w sess evs = (none, w2)) :
    ∃ id : String,
      (∀ sessionObj : session, sess = some sessionObj → id = sessionObj.ID) ∧
      (sess = none → lib.uuidNewV4 = Except.ok id) ∧
      ttl w2.store id = some maxAge := by
  rw [writeState_not_destroy lib s w sess evs hnd] at hok
  have key : ∀ (sessionObj : session) (isNew : Bool),
      persist lib s w (reduceForCommit sessionObj isNew evs).1 isNew
        (reduceForCommit sessionObj isNew evs).2 = (none, w2) →
      ttl w2.store sessionObj.ID = some maxAge := by
    intro sessionObj isNew hp
    obtain ⟨enc, hs, hno, hyes⟩ := persist_store lib s w w2 _ _ _ hp
    have hid : (reduceForCommit sessionObj isNew evs).1.ID = sessionObj.ID := rfl
    rw [hid] at hs hno hyes
    have hafter := hSet w.store sessionObj.ID enc hs
    cases hdr : (reduceForCommit sessionObj isNew evs).2 with
    | false => rw [hno hdr]; exact hafter
    | true =>
      obtain ⟨hr, hst⟩ := hyes hdr
      rw [hst]
      exact hReset _ _ (by rw [hafter]; simp) hr
  cases sess with
  | some sessionObj =>
    simp only [openSession] at hok
    refine ⟨sessionObj.ID, ?_, by simp, key sessionObj false hok⟩
    intro so hso
    cases hso
    rfl
  | none =>
    cases hu : lib.uuidNewV4 with
    | error err => simp [openSession, hu] at hok
    | ok id =>
      simp only [openSession, hu] at hok
      exact ⟨id, by simp, fun _ => rfl, key ⟨id, ∅⟩ true hok⟩

theorem ttlStorer_set (maxAge : Nat) (st : TTLStore) (key value : String)
    (hpos : maxAge ≠ 0) :
    ttlOf ((ttlStorer maxAge).Set st key value).2 key = some maxAge := by
  simp [ttlStorer, ttlOf, hpos]

theorem ttlStorer_reset (maxAge : Nat) (st : TTLStore) (key : String)
    (hpos : maxAge ≠ 0) (h : ttlOf st key ≠ none) :
    ttlOf ((ttlStorer maxAge).ResetExpiry st key).2 key = some maxAge := by
  cases hl : st.lookup key with
  | none => simp [ttlOf, hl] at h
  | some rec => simp [ttlStorer, ttlOf, hl, hpos]

/-- Over the store with expiry: a refresh-only log on an existing session and
the empty log on a new session both leave the record with the time to live of
max-age. -/
theorem commit_ttl_invariant_witness :
    (∃ id : String,
      (∀ sessionObj : session,
        some (⟨testID, AList.singleton "k" "v"⟩ : session) = some sessionObj →
          id = sessionObj.ID) ∧
      (some (⟨testID, AList.singleton "k" "v"⟩ : session) = none →
        demoLibs.uuidNewV4 = Except.ok id) ∧
      ttlOf (WriteState demoLibs ttlOverseer ⟨∅, [], []⟩
        (some ⟨testID, AList.singleton "k" "v"⟩) [evRefresh]).2.store id = some 172800) ∧
    (∃ id : String,
      (∀ sessionObj : session, (none : Option session) = some sessionObj →
        id = sessionObj.ID) ∧
      ((none : Option session) = none → demoLibs.uuidNewV4 = Except.ok id) ∧
      ttlOf (WriteState demoLibs ttlOverseer ⟨∅, [], []⟩ none []).2.store id =
        some 172800) :=
  ⟨commit_ttl_invariant demoLibs ttlOverseer ttlOf 172800 ⟨∅, [], []⟩
      (WriteState demoLibs ttlOverseer ⟨∅, [], []⟩
        (some ⟨testID, AList.singleton "k" "v"⟩) [evRefresh]).2
      (some ⟨testID, AList.singleton "k" "v"⟩) [evRefresh]
      (fun st key value _ => ttlStorer_set 172800 st key value (by decide))
      (fun st key h _ => ttlStorer_reset 172800 st key (by decide) h)
      (by decide) (by rfl),
    commit_ttl_invariant demoLibs ttlOverseer ttlOf 172800 ⟨∅, [], []⟩
      (WriteState demoLibs ttlOverseer ⟨∅, [], []⟩ none []).2 none []
      (fun st key value _ => ttlStorer_set 172800 st key value (by decide))
      (fun st key h _ => ttlStorer_reset 172800 st key (by decide) h)
      (by decide) (by rfl)⟩

/-! ### Destroy events inside a longer log, and composition of logs -/

theorem foldl_applyEvent_filter (evs : List Event) :
    ∀ st : Values × Bool,
      evs.foldl applyEvent st =
        (evs.filter (fun ev => decide (ev.Kind ≠ EventDelClientState))).foldl applyEvent st := by
  induction evs with
  | nil => intro st; rfl
  | cons ev rest ih =>
    intro st
    by_cases h : ev.Kind = EventDelClientState
    · have hskip : applyEvent st ev = st := by
        simp [applyEvent, h, EventDelClientState, EventSet, EventDel, EventDelAll,
          EventRefresh]
      simp only [List.foldl_cons, hskip, List.filter_cons, h, ne_eq, not_true_eq_false,
        decide_False, Bool.false_eq_true, if_false]
      exact ih st
    · simp only [List.foldl_cons, List.filter_cons, h, ne_eq, not_false_eq_true,
        decide_True, if_true]
      exact ih _

theorem isDestroyLog_length (evs : List Event) (h : evs.length ≠ 1) :
    isDestroyLog evs = false := by
  cases evs with
  | nil => rfl
  | cons ev rest =>
    cases rest with
    | nil => simp at h
    | cons ev2 rest2 => rfl

/-- C25: a destroy event mixed with other events is silently ignored. For a
log of any length other than one `WriteState` does not take the
cookie-deletion path: it opens the session and persists the reduced values as
for any other log. And for every session and every log, `applyEvents` yields
the same values and the same `doRefresh` as on the log with every
`EventDelClientState` event removed. -/
theorem destroy_mixed_is_ignored {σ : Type} (lib : Libs) (s : StorageOverseer σ)
    (w : World σ) (sess : Option session) (sessionObj : session) (evs : List Event) :
    (evs.length ≠ 1 →
      isDestroyLog evs = false ∧
      WriteState lib s w sess evs =
        match openSession lib sess with
        | Except.error err => (some err, w)
        | Except.ok (so, isNew) =>
          persist lib s w (reduceForCommit so isNew evs).1 isNew
            (reduceForCommit so isNew evs).2) ∧
    (applyEvents sessionObj evs).1.Values =
      (applyEvents sessionObj
        (evs.filter (fun ev => decide (ev.Kind ≠ EventDelClientState)))).1.Values ∧
    (applyEvents sessionObj evs).2 =
      (applyEvents sessionObj
        (evs.filter (fun ev => decide (ev.Kind ≠ EventDelClientState)))).2 := by
  refine ⟨?_, ?_, ?_⟩
  · intro h
    exact ⟨isDestroyLog_length evs h,
      writeState_not_destroy lib s w sess evs (isDestroyLog_length evs h)⟩
  · simp only [applyEvents]
    rw [← foldl_applyEvent_filter]
  · simp only [applyEvents]
    rw [← foldl_applyEvent_filter]

/-- A destroy event after a `Set`: the log is not the destroy log, and it
reduces like the `Set` alone. -/
theorem destroy_mixed_is_ignored_witness :
    isDestroyLog [evSet "k" "v", ⟨EventDelClientState, "", "", []⟩] = false ∧
    (applyEvents ⟨testID, ∅⟩ [evSet "k" "v", ⟨EventDelClientState, "", "", []⟩]).1.Values =
      (applyEvents ⟨testID, ∅⟩
        ([evSet "k" "v", ⟨EventDelClientState, "", "", []⟩].filter
          (fun ev => decide (ev.Kind ≠ EventDelClientState)))).1.Values :=
  ⟨((destroy_mixed_is_ignored demoLibs demoOverseer emptyWorld none ⟨testID, ∅⟩
      [evSet "k" "v", ⟨EventDelClientState, "", "", []⟩]).1 (by decide)).1,
    (destroy_mixed_is_ignored demoLibs demoOverseer emptyWorld none ⟨testID, ∅⟩
      [evSet "k" "v", ⟨EventDelClientState, "", "", []⟩]).2.1⟩

/-- C26: reduction is compositional over log concatenation. Reducing `a ++ b`
against `M` yields the values obtained by reducing `b` against the values
obtained by reducing `a` against `M`, its `doRefresh` is the disjunction of
the `doRefresh` of the two partial reductions, and the id is kept; reducing
the empty log returns `M` unchanged with `doRefresh` false. -/
theorem applyEvents_compositional (id : String) (M : Values) (a b : List Event) :
    (applyEvents ⟨id, M⟩ (a ++ b)).1.Values =
      (applyEvents (applyEvents ⟨id, M⟩ a).1 b).1.Values ∧
    (applyEvents ⟨id, M⟩ (a ++ b)).2 =
      ((applyEvents ⟨id, M⟩ a).2 || (applyEvents (applyEvents ⟨id, M⟩ a).1 b).2) ∧
    (applyEvents ⟨id, M⟩ (a ++ b)).1.ID = id ∧
    (applyEvents ⟨id, M⟩ []).1.Values = M ∧
    (applyEvents ⟨id, M⟩ []).2 = false := by
  refine ⟨applyEvents_append_values _ a b, ?_, rfl, rfl, rfl⟩
  simp only [applyEvents_refresh, List.any_append]

/-! ### Reduction on a map that may be nil -/

theorem applyEventsFrom_some (evs : List Event) :
    ∀ (M : Values) (r0 : Bool),
      applyEventsFrom (some M, r0) evs =
        some (some (evs.foldl applyEvent (M, r0)).1, (evs.foldl applyEvent (M, r0)).2) := by
  induction evs with
  | nil => intro M r0; rfl
  | cons ev rest ih =>
    intro M r0
    rw [applyEventsFrom]
    simp only [applyEventNilable, List.foldl_cons]
    exact ih _ _

/-- On a map that is not nil the reduction never panics and is
`applyEvents`. -/
theorem applyEventsNilable_some (id : String) (M : Values) (evs : List Event) :
    applyEventsNilable (some M) evs =
      some (some (applyEvents ⟨id, M⟩ evs).1.Values, (applyEvents ⟨id, M⟩ evs).2) := by
  simp only [applyEventsNilable, applyEventsFrom_some, applyEvents]

theorem applyEventNilable_nil (r0 : Bool) (ev : Event) :
    applyEventNilable (none, r0) ev =
      if ev.Kind = EventSet then none
      else some (none, r0 || decide (ev.Kind = EventRefresh)) := by
  simp only [applyEventNilable]
  split_ifs with h0 h1 h2 h3
  · rfl
  · simp [h1, EventDel, EventRefresh]
  · simp [h2, EventDelAll, EventRefresh]
  · simp [h3]
  · simp [h3]

theorem applyEventsFrom_nil (evs : List Event) :
    ∀ r0 : Bool,
      applyEventsFrom (none, r0) evs =
        if evs.any (fun ev => decide (ev.Kind = EventSet)) then none
        else some (none, r0 || evs.any (fun ev => decide (ev.Kind = EventRefresh))) := by
  induction evs with
  | nil => intro r0; simp [applyEventsFrom]
  | cons ev rest ih =>
    intro r0
    rw [applyEventsFrom, applyEventNilable_nil]
    by_cases h0 : ev.Kind = EventSet
    · simp [h0]
    · simp only [h0, if_false, ih, List.any_cons, decide_False, Bool.false_or, Bool.or_assoc]

/-- C2, as stated, fails: on the nil map the log `[Set(k, "a"), Set(k, "b")]`
makes `applyEvents` panic at the first assignment, so no `values[k]` is left;
on the empty map that is not nil the same log leaves `values[k] == "b"`. -/
theorem nil_map_set_panics :
    applyEventsNilable none [evSet "k" "a", evSet "k" "b"] = none ∧
    applyEventsNilable (some ∅) [evSet "k" "a", evSet "k" "b"] =
      some (some (AList.singleton "k" "b"), false) := by
  constructor
  · rfl
  · rw [applyEventsNilable_some "id"]
    rfl

/-- C2, amended: last write wins on a map that is not nil. Reducing any event
list followed by `Set(k, v)` against any initial map that is not nil returns,
and leaves `values[k] == v`; in particular reducing `[Set(k, "a"), Set(k, "b")]`
against any map that is not nil leaves `values[k] == "b"`. -/
theorem last_write_wins_on_non_nil_map (M : Values) (evs : List Event) (k v : String)
    (keys : List String) :
    (∃ (V : Values) (r : Bool),
      applyEventsNilable (some M) (evs ++ [⟨EventSet, k, v, keys⟩]) = some (some V, r) ∧
      V.lookup k = some v) ∧
    (∃ (V : Values) (r : Bool),
      applyEventsNilable (some M) [evSet k "a", evSet k "b"] = some (some V, r) ∧
      V.lookup k = some "b") := by
  constructor
  · exact ⟨_, _, applyEventsNilable_some "" M _, lookup_after_set_last ⟨"", M⟩ evs k v keys⟩
  · exact ⟨_, _, applyEventsNilable_some "" M _,
      lookup_after_set_last ⟨"", M⟩ [evSet k "a"] k "b" []⟩

/-- C5, as stated, fails: on the nil map the log `[Refresh, Set(k, v)]`, which
holds a `Refresh` event, makes `applyEvents` panic at the `Set`, so no
`doRefresh` is returned. -/
theorem nil_map_refresh_then_set_panics :
    (∃ ev ∈ [evRefresh, evSet "k" "v"], ev.Kind = EventRefresh) ∧
    applyEventsNilable none [evRefresh, evSet "k" "v"] = none := by
  constructor
  · exact ⟨evRefresh, by simp, rfl⟩
  · rfl

/-- C5, amended: refresh is sticky on a map that is not nil. For every map
that is not nil and every log, `applyEvents` returns, and returns
`doRefresh == true` exactly when the log holds at least one `Refresh` event,
whatever follows it. On the nil map `applyEvents` panics exactly when the log
holds a `Set` event, and when it returns, `doRefresh` is again true exactly
when the log holds a `Refresh` event. -/
theorem refresh_sticky_on_non_nil_map (M : Values) (evs : List Event) :
    (∃ (V : Values) (r : Bool),
      applyEventsNilable (some M) evs = some (some V, r) ∧
      (r = true ↔ ∃ ev ∈ evs, ev.Kind = EventRefresh)) ∧
    (∀ (pre post : List Event) (key val : String) (keys : List String),
      ∃ V : Values,
        applyEventsNilable (some M) (pre ++ ⟨EventRefresh, key, val, keys⟩ :: post) =
          some (some V, true)) ∧
    (applyEventsNilable none evs = none ↔ ∃ ev ∈ evs, ev.Kind = EventSet) ∧
    (∀ res : GoMap × Bool, applyEventsNilable none evs = some res →
      (res.2 = true ↔ ∃ ev ∈ evs, ev.Kind = EventRefresh)) := by
  refine ⟨?_, ?_, ?_, ?_⟩
  · refine ⟨_, _, applyEventsNilable_some "" M evs, ?_⟩
    rw [applyEvents_refresh]
    simp
  · intro pre post key val keys
    refine ⟨(applyEvents ⟨"", M⟩ (pre ++ ⟨EventRefresh, key, val, keys⟩ :: post)).1.Values, ?_⟩
    rw [applyEventsNilable_some "" M]
    have h : (applyEvents ⟨"", M⟩ (pre ++ ⟨EventRefresh, key, val, keys⟩ :: post)).2 = true := by
      rw [applyEvents_refresh]
      simp
    rw [h]
  · rw [applyEventsNilable, applyEventsFrom_nil]
    by_cases h : evs.any (fun ev => decide (ev.Kind = EventSet)) = true
    · rw [if_pos h]
      simp only [true_iff]
      simpa using h
    · rw [if_neg h]
      simp only [reduceCtorEq, false_iff]
      intro hex
      apply h
      simpa using hex
  · intro res hres
    rw [applyEventsNilable, applyEventsFrom_nil] at hres
    by_cases h : evs.any (fun ev => decide (ev.Kind = EventSet)) = true
    · rw [if_pos h] at hres
      cases hres
    · rw [if_neg h] at hres
      cases hres
      simp

/-! ### Flash values through the middleware -/

/-- The commit a handler triggers after `GetFlash` found a value: the writer
made by `newResponseWriter` has no session, so `WriteState` is called with a
nil session and the one queued event `Del(key)`. -/
theorem flashReaderHandler_commit {σ : Type} (overseer : Overseer σ) (w : World σ)
    (ctx : Context) (r : Request) (key v : String) (hget : Get ctx key = (v, true)) :
    flashReaderHandler key (ResponseWriter.sink (newResponseWriter w overseer)) ctx r =
      match overseer.WriteState w none [⟨EventDel, key, "", []⟩] with
      | (some _, _) => none
      | (none, w1) => some ((v, true), w1) := by
  cases hws : overseer.WriteState w none [⟨EventDel, key, "", []⟩] with
  | mk res w1 =>
    cases res with
    | some e =>
      simp [flashReaderHandler, GetFlash, hget, Del, appendEvent, getResponseWriter,
        ResponseWriter.assign, newResponseWriter, possesionsWriter.WriteHeader,
        possesionsWriter.writeClientState, hws]
    | none =>
      simp [flashReaderHandler, GetFlash, hget, Del, appendEvent, getResponseWriter,
        ResponseWriter.assign, newResponseWriter, possesionsWriter.WriteHeader,
        possesionsWriter.writeClientState, hws]

/-- C19 on the code. Request A, without a cookie, queues
`AddFlash("key", "value")` and commits: the record is stored under the minted
id. Request B, with the cookie of that id, gets `("value", true)` from
`GetFlash("key")` and commits: the queued `Del` is reduced against a new empty
session and stored under a newly minted id, and the record under the id B read
still holds the flash value. Request C, with the same cookie as B, gets
`("value", true)` from `GetFlash("key")` again. -/
theorem flash_survives_its_read :
    oversight.ServeHTTP
        ⟨flashWriterHandler "key" "value", demoOverseer.toOverseer firstLibs demoUnmarshal⟩
        emptyWorld ⟨[]⟩ =
      Except.ok (some flashWorld) ∧
    oversight.ServeHTTP
        ⟨flashReaderHandler "key", demoOverseer.toOverseer demoLibs demoUnmarshal⟩
        flashWorld ⟨[("id", testID)]⟩ =
      Except.ok (some (("value", true), flashWorldAfterRead)) ∧
    flashWorldAfterRead.store.lookup testID = some "\x7b\"key\":\"value\"\x7d" ∧
    ∃ w3 : World (List (String × String)),
      oversight.ServeHTTP
          ⟨flashReaderHandler "key", demoOverseer.toOverseer demoLibs demoUnmarshal⟩
          flashWorldAfterRead ⟨[("id", testID)]⟩ =
        Except.ok (some (("value", true), w3)) := by
  refine ⟨by rfl, by rfl, by rfl, ⟨_, by rfl⟩⟩

end Possessions
